import Mathlib

/-!
# ydaemon: strategies multicall aggregation

A shallow embedding of `internal/daemons/multicall.strategies.data.go` (the seven
call builders, the construction of the call list, the version-aware decoding loop of
`FetchStrategiesMulticallData`, the reload `LoadStrategyMulticallData`) and of
`internal/daemons/metaStrategiesAPI.go` (`FetchStrategiesFromMeta`, `RunMetaStrategies`).

Conventions of the embedding

* A Go `*big.Int` field is an `Option Int`: `none` is the nil pointer (the
  field was never assigned), `some n` a pointer to the integer `n`.
* A Go run-time panic (failed type assertion, index out of range) is the
  `error` case of `Except Fault`.
* The go-ethereum functions the daemon calls (`Address.String`,
  `common.HexToAddress`, `ABI.Pack`), the batch executor, the durable load and what a
  cycle obtains from the remote metadata source are parameters.
* The endless loop of `RunMetaStrategies` is run over its first turns, one per element of
  a list, and what the functions do to their collaborators is kept as a list of effects.
-/

namespace YDaemon

/-! ## Data model -/

/-- A `common.Address`, the 20 bytes read as one number. -/
structure Address where
  val : Nat
  deriving DecidableEq, Repr

/-- The two go-ethereum address functions used by the daemon:
`toStr` is `common.Address.String` and `hexToAddress` is `common.HexToAddress`. -/
structure AddressLib where
  toStr : Address → String
  hexToAddress : String → Address

/-- A dynamically typed element of a raw result (a Go `interface{}` produced by
ABI unpacking): a `*big.Int` (never nil, as unpacking allocates it), a `bool`, or a value
of some other dynamic type. -/
inductive Value where
  | bigInt (n : Int)
  | boolean (b : Bool)
  | other (description : String)
  deriving DecidableEq, Repr

/-- A run-time panic of the Go program. -/
inductive Fault where
  | typeAssertion
  | indexOutOfRange
  deriving DecidableEq, Repr

/-- The ABI a call descriptor points to: the two package-level ABIs
(`yearnVaultABI`, `yearnStrategyABI`) and the two parsed inside `getStrategies`
from `utils.YEARN_VAULT_V022_ABI` and `utils.YEARN_VAULT_V030_ABI`. -/
inductive AbiRef where
  | yearnVaultABI
  | yearnStrategyABI
  | YEARN_VAULT_V022_ABI
  | YEARN_VAULT_V030_ABI
  deriving DecidableEq, Repr

/-- The result of `ABI.Pack(method, args...)`: the encoded bytes or an error. -/
abbrev PackFn := AbiRef → String → List Address → Except String (List Nat)

/-- Modelled from the spec: the call descriptor `ethereum.Call` (its declaration is
not among the sources), with the six fields the builders fill in. -/
structure Call where
  Target : Address
  Abi : AbiRef
  Method : String
  CallData : List Nat
  Name : String
  Version : String
  deriving DecidableEq, Repr

/-- Modelled from the spec: the manifest item `models.TStrategyList` (declaration
not among the sources), with the three fields `FetchStrategiesMulticallData` reads. -/
structure TStrategyList where
  Strategy : Address
  Vault : Address
  VaultVersion : String
  deriving DecidableEq, Repr

/-- Modelled from the spec: the record `models.TStrategyMultiCallData` (declaration
not among the sources). Every numeric field is a `*big.Int`, as the assignments
`data.F = x.(*big.Int)` require; `none` is the nil pointer. -/
structure TStrategyMultiCallData where
  CreditAvailable : Option Int
  DebtOutstanding : Option Int
  ExpectedReturn : Option Int
  EstimatedTotalAssets : Option Int
  KeepCRV : Option Int
  IsActive : Bool
  PerformanceFee : Option Int
  Activation : Option Int
  DebtRatio : Option Int
  DebtLimit : Option Int
  RateLimit : Option Int
  MinDebtPerHarvest : Option Int
  MaxDebtPerHarvest : Option Int
  LastReport : Option Int
  TotalDebt : Option Int
  TotalGain : Option Int
  TotalLoss : Option Int
  deriving DecidableEq, Repr

/-- The mapping returned by `caller.ExecuteByBatch`: raw results keyed by
`Name + Method` (a Go `map[string][]interface{}`). -/
abbrev Response := List (String × List Value)

/-- The map `store.StrategyMultiCallData[chainID]`, from address to record. -/
abbrev AddrMap := Address → Option TStrategyMultiCallData

/-! ## Call descriptor builders (lines 24-116) -/

/-- The statement `parsedData, _ := abi.Pack(...)`: the error is discarded and
`parsedData` is the nil slice when packing failed. -/
def packedOrNil (r : Except String (List Nat)) : List Nat :=
  match r with
  | .ok bytes => bytes
  | .error _ => []

/-- The builder `getCreditAvailable` (lines 24-34). -/
def getCreditAvailable (pack : PackFn) (name : String) (contractAddress strategyAddress : Address)
    (version : String) : Call :=
  let parsedData := packedOrNil (pack .yearnVaultABI "creditAvailable0" [strategyAddress])
  { Target := contractAddress
    Abi := .yearnVaultABI
    Method := "creditAvailable0"
    CallData := parsedData
    Name := name
    Version := version }

/-- The builder `getDebtOutstanding` (lines 36-46). -/
def getDebtOutstanding (pack : PackFn) (name : String) (contractAddress strategyAddress : Address)
    (version : String) : Call :=
  let parsedData := packedOrNil (pack .yearnVaultABI "debtOutstanding0" [strategyAddress])
  { Target := contractAddress
    Abi := .yearnVaultABI
    Method := "debtOutstanding0"
    CallData := parsedData
    Name := name
    Version := version }

/-- The builder `getStrategies` (lines 48-68): the ABI is chosen from the version string. -/
def getStrategies (pack : PackFn) (name : String) (contractAddress strategyAddress : Address)
    (version : String) : Call :=
  let abiToUse : AbiRef :=
    if version = "0.2.2" then .YEARN_VAULT_V022_ABI
    else if version = "0.3.0" ∨ version = "0.3.1" then .YEARN_VAULT_V030_ABI
    else .yearnVaultABI
  let parsedData := packedOrNil (pack abiToUse "strategies" [strategyAddress])
  { Name := name
    Target := contractAddress
    Abi := abiToUse
    Method := "strategies"
    CallData := parsedData
    Version := version }

/-- The builder `getExpectedReturn` (lines 70-80). -/
def getExpectedReturn (pack : PackFn) (name : String) (contractAddress strategyAddress : Address)
    (version : String) : Call :=
  let parsedData := packedOrNil (pack .yearnVaultABI "expectedReturn0" [strategyAddress])
  { Target := contractAddress
    Abi := .yearnVaultABI
    Method := "expectedReturn0"
    CallData := parsedData
    Name := name
    Version := version }

/-- The builder `getStategyEstimatedTotalAsset` (lines 82-92). -/
def getStategyEstimatedTotalAsset (pack : PackFn) (name : String) (contractAddress : Address)
    (version : String) : Call :=
  let parsedData := packedOrNil (pack .yearnStrategyABI "estimatedTotalAssets" [])
  { Target := contractAddress
    Abi := .yearnStrategyABI
    Method := "estimatedTotalAssets"
    CallData := parsedData
    Name := name
    Version := version }

/-- The builder `getStategyIsActive` (lines 94-104). -/
def getStategyIsActive (pack : PackFn) (name : String) (contractAddress : Address)
    (version : String) : Call :=
  let parsedData := packedOrNil (pack .yearnStrategyABI "isActive" [])
  { Target := contractAddress
    Abi := .yearnStrategyABI
    Method := "isActive"
    CallData := parsedData
    Name := name
    Version := version }

/-- The builder `getStategyKeepCRV` (lines 106-116). -/
def getStategyKeepCRV (pack : PackFn) (name : String) (contractAddress : Address)
    (version : String) : Call :=
  let parsedData := packedOrNil (pack .yearnStrategyABI "keepCRV" [])
  { Target := contractAddress
    Abi := .yearnStrategyABI
    Method := "keepCRV"
    CallData := parsedData
    Name := name
    Version := version }

/-- The body of the first loop of `FetchStrategiesMulticallData` (lines 126-132):
the seven appends for one manifest item. -/
def appendCalls (lib : AddressLib) (pack : PackFn) (calls : List Call) (strat : TStrategyList) :
    List Call :=
  let calls := calls ++ [getCreditAvailable pack (lib.toStr strat.Strategy) strat.Vault strat.Strategy strat.VaultVersion]
  let calls := calls ++ [getDebtOutstanding pack (lib.toStr strat.Strategy) strat.Vault strat.Strategy strat.VaultVersion]
  let calls := calls ++ [getExpectedReturn pack (lib.toStr strat.Strategy) strat.Vault strat.Strategy strat.VaultVersion]
  let calls := calls ++ [getStrategies pack (lib.toStr strat.Strategy) strat.Vault strat.Strategy strat.VaultVersion]
  let calls := calls ++ [getStategyEstimatedTotalAsset pack (lib.toStr strat.Strategy) strat.Strategy strat.VaultVersion]
  let calls := calls ++ [getStategyIsActive pack (lib.toStr strat.Strategy) strat.Strategy strat.VaultVersion]
  let calls := calls ++ [getStategyKeepCRV pack (lib.toStr strat.Strategy) strat.Strategy strat.VaultVersion]
  calls

/-- The call list of a pass (lines 124-133): the loop over `store.StrategyList[chainID]`,
starting from the empty slice. -/
def buildCalls (lib : AddressLib) (pack : PackFn) (strategyList : List TStrategyList) : List Call :=
  strategyList.foldl (appendCalls lib pack) []

/-! ## Decoding (lines 150-214) -/

/-- The map read `response[key]`: the nil slice when the key is absent. -/
def rawResult (response : Response) (key : String) : List Value :=
  match response.lookup key with
  | some values => values
  | none => []

/-- The slice index `values[i]`, which panics when `i` is out of range. -/
def index (values : List Value) (i : Nat) : Except Fault Value :=
  match values[i]? with
  | some v => .ok v
  | none => .error .indexOutOfRange

/-- The type assertion `v.(*big.Int)`, which panics on any other dynamic type. -/
def assertBigInt (v : Value) : Except Fault Int :=
  match v with
  | .bigInt n => .ok n
  | _ => .error .typeAssertion

/-- The type assertion `v.(bool)`, which panics on any other dynamic type. -/
def assertBool (v : Value) : Except Fault Bool :=
  match v with
  | .boolean b => .ok b
  | _ => .error .typeAssertion

/-- The expression `values[i].(*big.Int)`. -/
def bigIntAt (values : List Value) (i : Nat) : Except Fault Int :=
  match index values i with
  | .ok v => assertBigInt v
  | .error e => .error e

/-- The expression `values[i].(bool)`. -/
def boolAt (values : List Value) (i : Nat) : Except Fault Bool :=
  match index values i with
  | .ok v => assertBool v
  | .error e => .error e

/-- The record literal of lines 158-165: five numeric fields point to zero, the
flag is false, the other eleven fields are not mentioned and stay nil. -/
def initialData : TStrategyMultiCallData :=
  { CreditAvailable := some 0
    DebtOutstanding := some 0
    ExpectedReturn := some 0
    EstimatedTotalAssets := some 0
    KeepCRV := some 0
    IsActive := false
    PerformanceFee := none
    Activation := none
    DebtRatio := none
    DebtLimit := none
    RateLimit := none
    MinDebtPerHarvest := none
    MaxDebtPerHarvest := none
    LastReport := none
    TotalDebt := none
    TotalGain := none
    TotalLoss := none }

/-- Lines 151-183 without the `strategies` lookup: the six single-value results are
looked up under `name + method` and, when of length one, asserted into their field.
The statements run in source order and the first panic ends the decoding. -/
def decodeSingleValues (response : Response) (name : String) :
    Except Fault TStrategyMultiCallData := do
  let creditAvailable0 := rawResult response (name ++ "creditAvailable0")
  let debtOutstanding0 := rawResult response (name ++ "debtOutstanding0")
  let expectedReturn := rawResult response (name ++ "expectedReturn0")
  let estimatedTotalAssets := rawResult response (name ++ "estimatedTotalAssets")
  let isActive := rawResult response (name ++ "isActive")
  let keepCRV := rawResult response (name ++ "keepCRV")
  let data := initialData
  let data ←
    (if creditAvailable0.length = 1 then
      (do let v ← bigIntAt creditAvailable0 0
          pure { data with CreditAvailable := some v })
    else pure data)
  let data ←
    (if debtOutstanding0.length = 1 then
      (do let v ← bigIntAt debtOutstanding0 0
          pure { data with DebtOutstanding := some v })
    else pure data)
  let data ←
    (if expectedReturn.length = 1 then
      (do let v ← bigIntAt expectedReturn 0
          pure { data with ExpectedReturn := some v })
    else pure data)
  let data ←
    (if estimatedTotalAssets.length = 1 then
      (do let v ← bigIntAt estimatedTotalAssets 0
          pure { data with EstimatedTotalAssets := some v })
    else pure data)
  let data ←
    (if keepCRV.length = 1 then
      (do let v ← bigIntAt keepCRV 0
          pure { data with KeepCRV := some v })
    else pure data)
  let data ←
    (if isActive.length = 1 then
      (do let v ← boolAt isActive 0
          pure { data with IsActive := v })
    else pure data)
  pure data

/-- Lines 184-212: the branch on the version string and the length of the
`strategies` result; no branch is taken for any other combination. -/
def decodeStrategies (version : String) (strategies : List Value)
    (data : TStrategyMultiCallData) : Except Fault TStrategyMultiCallData :=
  if version = "0.2.2" ∧ strategies.length = 8 then do
    let v0 ← bigIntAt strategies 0
    let v1 ← bigIntAt strategies 1
    let v2 ← bigIntAt strategies 2
    let v3 ← bigIntAt strategies 3
    let v4 ← bigIntAt strategies 4
    let v5 ← bigIntAt strategies 5
    let v6 ← bigIntAt strategies 6
    let v7 ← bigIntAt strategies 7
    pure { data with
      PerformanceFee := some v0
      Activation := some v1
      DebtLimit := some v2
      RateLimit := some v3
      LastReport := some v4
      TotalDebt := some v5
      TotalGain := some v6
      TotalLoss := some v7 }
  else if (version = "0.3.0" ∨ version = "0.3.1") ∧ strategies.length = 8 then do
    let v0 ← bigIntAt strategies 0
    let v1 ← bigIntAt strategies 1
    let v2 ← bigIntAt strategies 2
    let v3 ← bigIntAt strategies 3
    let v4 ← bigIntAt strategies 4
    let v5 ← bigIntAt strategies 5
    let v6 ← bigIntAt strategies 6
    let v7 ← bigIntAt strategies 7
    pure { data with
      PerformanceFee := some v0
      Activation := some v1
      DebtRatio := some v2
      RateLimit := some v3
      LastReport := some v4
      TotalDebt := some v5
      TotalGain := some v6
      TotalLoss := some v7 }
  else if strategies.length = 9 then do
    let v0 ← bigIntAt strategies 0
    let v1 ← bigIntAt strategies 1
    let v2 ← bigIntAt strategies 2
    let v3 ← bigIntAt strategies 3
    let v4 ← bigIntAt strategies 4
    let v5 ← bigIntAt strategies 5
    let v6 ← bigIntAt strategies 6
    let v7 ← bigIntAt strategies 7
    let v8 ← bigIntAt strategies 8
    pure { data with
      PerformanceFee := some v0
      Activation := some v1
      DebtRatio := some v2
      MinDebtPerHarvest := some v3
      MaxDebtPerHarvest := some v4
      LastReport := some v5
      TotalDebt := some v6
      TotalGain := some v7
      TotalLoss := some v8 }
  else pure data

/-- Lines 151-212 for one manifest item: the value of `data` just before it is
stored, or the panic that ended the decoding. -/
def decodeData (response : Response) (name version : String) :
    Except Fault TStrategyMultiCallData := do
  let data ← decodeSingleValues response name
  decodeStrategies version (rawResult response (name ++ "strategies")) data

/-- The map assignment `m[key] = data`. -/
def AddrMap.set (m : AddrMap) (key : Address) (data : TStrategyMultiCallData) : AddrMap :=
  fun a => if a = key then some data else m a

/-- One iteration of the decoding loop (lines 151-213): decode the item and store the
record under `common.HexToAddress(strat.Strategy.String())`. -/
def decodeStep (lib : AddressLib) (response : Response) (m : AddrMap) (strat : TStrategyList) :
    Except Fault AddrMap := do
  let data ← decodeData response (lib.toStr strat.Strategy) strat.VaultVersion
  pure (m.set (lib.hexToAddress (lib.toStr strat.Strategy)) data)

/-- The decoding loop (lines 150-214) over the manifest, acting on the network's map.
A panic in any iteration ends the loop. -/
def decodeLoop (lib : AddressLib) (response : Response) (m : AddrMap) :
    List TStrategyList → Except Fault AddrMap
  | [] => pure m
  | strat :: rest => do
    let m ← decodeStep lib response m strat
    decodeLoop lib response m rest

/-! ## The pass as a whole (lines 119-216) -/

/-- What the pass does to its collaborators, in the order it happens. -/
inductive Effect where
  | logError (message : String)
  | logWarning (message : String)
  | logSuccess (message : String)
  | wgDone
  | executeByBatch (chainID : Nat) (calls : List Call) (maxBatch : Nat)
  | saveInDB (key : String) (chainID : Nat) (snapshot : AddrMap)

/-- The process-wide state the pass reads and writes: the manifest
`store.StrategyList`, the map `store.StrategyMultiCallData` (`none` where the network has
no inner map yet) and the effects so far. -/
structure Store where
  StrategyList : Nat → List TStrategyList
  StrategyMultiCallData : Nat → Option AddrMap
  effects : List Effect

/-- The batch cap of lines 141-144: 50 on chain 1, `math.MaxInt64` elsewhere. -/
def maxBatchFor (chainID : Nat) : Nat :=
  if chainID = 1 then 50 else 9223372036854775807

/-- The function `FetchStrategiesMulticallData` (lines 119-216). The batch executor
`caller.ExecuteByBatch` is the parameter `executeByBatch`; a panic of the decoding loop is
the `error` result. -/
def FetchStrategiesMulticallData (lib : AddressLib) (pack : PackFn)
    (executeByBatch : List Call → Nat → Response) (chainID : Nat) (s : Store) :
    Except Fault Store :=
  let calls := buildCalls lib pack (s.StrategyList chainID)
  if calls.length = 0 then
    pure { s with effects := s.effects ++ [.logError "No strategies found."] }
  else
    let maxBatch := maxBatchFor chainID
    let response := executeByBatch calls maxBatch
    let m : AddrMap :=
      match s.StrategyMultiCallData chainID with
      | some m => m
      | none => fun _ => none
    match decodeLoop lib response m (s.StrategyList chainID) with
    | .error e => .error e
    | .ok m' =>
      pure { s with
        StrategyMultiCallData := fun c => if c = chainID then some m' else s.StrategyMultiCallData c
        effects := s.effects ++
          [.executeByBatch chainID calls maxBatch, .saveInDB "StrategiesMultiCallData" chainID m'] }

/-! ## Reload from the database (lines 218-237) -/

/-- The entries of the map `temp` of `LoadStrategyMulticallData`. -/
abbrev Snapshot := List (Address × TStrategyMultiCallData)

/-- The map holding the entries of a snapshot. -/
def AddrMap.ofSnapshot (entries : Snapshot) : AddrMap :=
  fun a => entries.lookup a

/-- The durable load `store.LoadFromDBForChainID(key, chainID, &temp)`: the error it
returns, or the value it leaves in `temp` (`none` for a nil map). -/
abbrev LoadFn := String → Nat → Except String (Option Snapshot)

/-- The length `len(temp)`, zero for the nil map. -/
def snapshotLen (temp : Option Snapshot) : Nat :=
  match temp with
  | some entries => entries.length
  | none => 0

/-- The function `LoadStrategyMulticallData` (lines 219-237); the deferred `wg.Done()` is
the last effect on every path. -/
def LoadStrategyMulticallData (loadFromDB : LoadFn) (chainID : Nat) (s : Store) : Store :=
  match loadFromDB "StrategiesMultiCallData" chainID with
  | .error err =>
    if err = "Key not found" then
      { s with effects := s.effects ++
          [.logWarning ("No strategy multicall data found for chainID: " ++ toString chainID),
            .wgDone] }
    else
      { s with effects := s.effects ++ [.logError err, .wgDone] }
  | .ok temp =>
    if temp.isSome = true ∧ snapshotLen temp > 0 then
      { s with
        StrategyMultiCallData := fun c =>
          if c = chainID then some (AddrMap.ofSnapshot (temp.getD []))
          else s.StrategyMultiCallData c
        effects := s.effects ++
          [.logSuccess ("Data loaded for the strategy multicall data store for chainID: " ++
              toString chainID),
            .wgDone] }
    else
      { s with effects := s.effects ++
          [.logWarning ("No strategy multicall data found for chainID: " ++ toString chainID),
            .wgDone] }

/-! ## The metadata refresher (metaStrategiesAPI.go) -/

/-- Modelled from the spec: the metadata record `models.TStrategyFromMeta` (declaration not
among the sources): the associated addresses the indexing loop reads, and a name standing
for the rest of the record. -/
structure TStrategyFromMeta where
  Addresses : List String
  Name : String
  deriving DecidableEq, Repr

/-- The map `store.StrategiesFromMeta[chainID]`, from address string to record. -/
abbrev MetaMap := String → Option TStrategyFromMeta

/-- The map assignment `m[key] = strategy`. -/
def MetaMap.set (m : MetaMap) (key : String) (strategy : TStrategyFromMeta) : MetaMap :=
  fun k => if k = key then some strategy else m k

/-- What one cycle obtains from the remote source (lines 23-45): a failure of `http.Get`,
of `ioutil.ReadAll` or of `json.Unmarshal`, or the parsed sequence of records. -/
inductive MetaFetch where
  | getFailed (err : String)
  | readFailed (err : String)
  | unmarshalFailed (err : String)
  | parsed (strategies : List TStrategyFromMeta)
  deriving DecidableEq, Repr

/-- What the refresher does to its collaborators, in the order it happens. -/
inductive MetaEvent where
  | logError (message : String)
  | logInfo (message : String)
  | wgDone
  | sleep (minutes : Nat)
  deriving DecidableEq, Repr

/-- The state the refresher reads and writes: the map `store.StrategiesFromMeta` (`none`
where the network has no inner map yet) and the events so far. -/
structure MetaStore where
  StrategiesFromMeta : Nat → Option MetaMap
  events : List MetaEvent

/-- The key `common.HexToAddress(strategyAddress).String()` of line 56. -/
def normalizedKey (lib : AddressLib) (strategyAddress : String) : String :=
  lib.toStr (lib.hexToAddress strategyAddress)

/-- The inner loop of lines 53-57: the record is stored under each of its addresses. -/
def indexStrategy (lib : AddressLib) (m : MetaMap) (strategy : TStrategyFromMeta) : MetaMap :=
  strategy.Addresses.foldl (fun m strategyAddress =>
    m.set (normalizedKey lib strategyAddress) strategy) m

/-- The function `FetchStrategiesFromMeta` (lines 20-59), given what the cycle obtains from
the remote source. Each failure is logged and ends the cycle. -/
def FetchStrategiesFromMeta (lib : AddressLib) (fetched : MetaFetch) (chainID : Nat)
    (s : MetaStore) : MetaStore :=
  match fetched with
  | .getFailed err =>
    { s with events := s.events ++
        [.logError ("Error fetching meta information from the Yearn Meta API" ++ err)] }
  | .readFailed err =>
    { s with events := s.events ++
        [.logError ("Error reading response body from the Yearn Meta API" ++ err)] }
  | .unmarshalFailed err =>
    { s with events := s.events ++
        [.logError ("Error unmarshalling response body from the Yearn Meta API" ++ err)] }
  | .parsed strategies =>
    let m : MetaMap :=
      match s.StrategiesFromMeta chainID with
      | some m => m
      | none => fun _ => none
    { s with
      StrategiesFromMeta := fun c =>
        if c = chainID then some (strategies.foldl (indexStrategy lib) m)
        else s.StrategiesFromMeta c }

/-- One turn of the loop of `RunMetaStrategies` (lines 66-72), acting on the flag `isDone`
and the state. -/
def metaCycle (lib : AddressLib) (chainID : Nat) (state : Bool × MetaStore)
    (fetched : MetaFetch) : Bool × MetaStore :=
  let s := FetchStrategiesFromMeta lib fetched chainID state.2
  let signalled : Bool × MetaStore :=
    if state.1 = false then
      (true, { s with events := s.events ++
        [.logInfo "Meta strategies API is ready", .wgDone] })
    else (state.1, s)
  (signalled.1, { signalled.2 with events := signalled.2.events ++ [.sleep 1] })

/-- The function `RunMetaStrategies` (lines 63-74) over the first turns of its endless
loop, one turn per element of `fetches`; `isDone` starts false. -/
def RunMetaStrategies (lib : AddressLib) (chainID : Nat) (fetches : List MetaFetch)
    (s : MetaStore) : Bool × MetaStore :=
  fetches.foldl (metaCycle lib chainID) (false, s)

/-! ## Vocabulary of the specification -/

/-- The seven method names of one manifest item, in the order their calls are appended. -/
def methodNames : List String :=
  ["creditAvailable0", "debtOutstanding0", "expectedReturn0", "strategies",
   "estimatedTotalAssets", "isActive", "keepCRV"]

/-- The eleven fields of the multi-field status sub-record are all nil (never assigned). -/
def statusUnset (d : TStrategyMultiCallData) : Prop :=
  d.PerformanceFee = none ∧ d.Activation = none ∧ d.DebtRatio = none ∧ d.DebtLimit = none ∧
  d.RateLimit = none ∧ d.MinDebtPerHarvest = none ∧ d.MaxDebtPerHarvest = none ∧
  d.LastReport = none ∧ d.TotalDebt = none ∧ d.TotalGain = none ∧ d.TotalLoss = none

/-- The six single-value fields of a record, in the order of the record literal. -/
def singlePart (d : TStrategyMultiCallData) :
    Option Int × Option Int × Option Int × Option Int × Option Int × Bool :=
  (d.CreditAvailable, d.DebtOutstanding, d.ExpectedReturn, d.EstimatedTotalAssets, d.KeepCRV,
    d.IsActive)

/-- The six single-value fields of the record. -/
inductive SingleField where
  | CreditAvailable
  | DebtOutstanding
  | ExpectedReturn
  | EstimatedTotalAssets
  | KeepCRV
  | IsActive
  deriving DecidableEq, Repr

/-- The method name under which the raw result of a single-value field is looked up. -/
def SingleField.method : SingleField → String
  | .CreditAvailable => "creditAvailable0"
  | .DebtOutstanding => "debtOutstanding0"
  | .ExpectedReturn => "expectedReturn0"
  | .EstimatedTotalAssets => "estimatedTotalAssets"
  | .KeepCRV => "keepCRV"
  | .IsActive => "isActive"

/-- The field holds the default the record literal gives it: zero, or false for the flag. -/
def SingleField.atDefault (F : SingleField) (d : TStrategyMultiCallData) : Prop :=
  match F with
  | .CreditAvailable => d.CreditAvailable = some 0
  | .DebtOutstanding => d.DebtOutstanding = some 0
  | .ExpectedReturn => d.ExpectedReturn = some 0
  | .EstimatedTotalAssets => d.EstimatedTotalAssets = some 0
  | .KeepCRV => d.KeepCRV = some 0
  | .IsActive => d.IsActive = false

/-- The record with the one field put back to its default and every other field kept:
two records agree on every field other than `F` exactly when their resets are equal. -/
def SingleField.reset (F : SingleField) (d : TStrategyMultiCallData) : TStrategyMultiCallData :=
  match F with
  | .CreditAvailable => { d with CreditAvailable := some 0 }
  | .DebtOutstanding => { d with DebtOutstanding := some 0 }
  | .ExpectedReturn => { d with ExpectedReturn := some 0 }
  | .EstimatedTotalAssets => { d with EstimatedTotalAssets := some 0 }
  | .KeepCRV => { d with KeepCRV := some 0 }
  | .IsActive => { d with IsActive := false }

/-- The value is a `*big.Int`. -/
def Value.isBigInt : Value → Bool
  | .bigInt _ => true
  | _ => false

/-- The value is a `bool`. -/
def Value.isBoolean : Value → Bool
  | .boolean _ => true
  | _ => false

/-- One of the three branches of lines 184-212 is taken for this version and result. -/
def branchTaken (version : String) (strategies : List Value) : Prop :=
  (version = "0.2.2" ∧ strategies.length = 8) ∨
  ((version = "0.3.0" ∨ version = "0.3.1") ∧ strategies.length = 8) ∨
  strategies.length = 9

/-- Every raw result whose elements the decoder reads for the item called `name` holds
only elements of the dynamic type it asserts: integers in a numeric single-value result of
length one, a boolean in an `isActive` result of length one, integers in a `strategies`
result for which a branch is taken. -/
def wellTyped (response : Response) (name version : String) : Prop :=
  (∀ method ∈ ["creditAvailable0", "debtOutstanding0", "expectedReturn0",
      "estimatedTotalAssets", "keepCRV"],
    (rawResult response (name ++ method)).length = 1 →
      ∀ v ∈ rawResult response (name ++ method), v.isBigInt = true) ∧
  ((rawResult response (name ++ "isActive")).length = 1 →
    ∀ v ∈ rawResult response (name ++ "isActive"), v.isBoolean = true) ∧
  (branchTaken version (rawResult response (name ++ "strategies")) →
    ∀ v ∈ rawResult response (name ++ "strategies"), v.isBigInt = true)

/-- What a single-value integer result contributes: nothing (`none`) when its length is
not one, the asserted integer otherwise. -/
def readBigInt (raw : List Value) : Except Fault (Option Int) :=
  if raw.length = 1 then
    match bigIntAt raw 0 with
    | .ok v => .ok (some v)
    | .error e => .error e
  else .ok none

/-- What the `isActive` result contributes: nothing when its length is not one, the
asserted boolean otherwise. -/
def readBool (raw : List Value) : Except Fault (Option Bool) :=
  if raw.length = 1 then
    match boolAt raw 0 with
    | .ok v => .ok (some v)
    | .error e => .error e
  else .ok none

/-- The key under which the loop stores the record of a manifest item (line 213). -/
def storeKey (lib : AddressLib) (strat : TStrategyList) : Address :=
  lib.hexToAddress (lib.toStr strat.Strategy)

/-- The last manifest item, in manifest order, that is stored under the key `a`. -/
def lastItemFor (lib : AddressLib) (a : Address) (strategyList : List TStrategyList) :
    Option TStrategyList :=
  (strategyList.filter (fun strat => decide (storeKey lib strat = a))).getLast?

/-- The entry of the network map under `a` once the loop has run over the manifest: the
record decoded for the last item stored under `a`, or the earlier entry when there is no
such item. -/
def entryAfter (lib : AddressLib) (response : Response) (m : AddrMap)
    (strategyList : List TStrategyList) (a : Address) : Option TStrategyMultiCallData :=
  match lastItemFor lib a strategyList with
  | some strat => (decodeData response (lib.toStr strat.Strategy) strat.VaultVersion).toOption
  | none => m a

/-- The map of a network before a pass, empty when the network has no inner map yet. -/
def mapOf (s : Store) (chainID : Nat) : AddrMap :=
  match s.StrategyMultiCallData chainID with
  | some m => m
  | none => fun _ => none

/-- The last metadata record of the sequence one of whose addresses normalizes to `key`. -/
def lastRecordFor (lib : AddressLib) (key : String) (strategies : List TStrategyFromMeta) :
    Option TStrategyFromMeta :=
  (strategies.filter (fun strategy =>
    strategy.Addresses.any (fun a => decide (normalizedKey lib a = key)))).getLast?

/-- The metadata map of a network before a cycle, empty when the network has no inner map
yet. -/
def metaMapOf (s : MetaStore) (chainID : Nat) : MetaMap :=
  match s.StrategiesFromMeta chainID with
  | some m => m
  | none => fun _ => none

/-- The number of readiness signals (`wg.Done`) among the events. -/
def readinessSignals (events : List MetaEvent) : Nat :=
  events.count .wgDone

/-! ## A concrete address library, for evaluating the embedding -/

/-- The value of a hexadecimal digit, 0 for any other character. -/
def hexValue (c : Char) : Nat :=
  if c.isDigit then c.toNat - 48
  else if 97 ≤ c.toNat ∧ c.toNat ≤ 102 then c.toNat - 87
  else if 65 ≤ c.toNat ∧ c.toNat ≤ 70 then c.toNat - 55
  else 0

/-- The lower-case digits of `n` in base 16, most significant first, `width` of them. -/
def hexDigits : Nat → Nat → List Char
  | 0, _ => []
  | width + 1, n => hexDigits width (n / 16) ++ [Nat.digitChar (n % 16)]

/-- A stand-in for the go-ethereum address functions: an address prints as `0x` and forty
hexadecimal digits (the mixed case of the checksum is left out) and is read back from the
digits after the first two characters, keeping the low 160 bits. -/
def hexLib : AddressLib where
  toStr a := "0x" ++ String.mk (hexDigits 40 a.val)
  hexToAddress s := ⟨(s.data.drop 2).foldl (fun acc c => (acc * 16 + hexValue c) % 2 ^ 160) 0⟩

/-- Two metadata records that share one address, written in two letter cases. -/
def sampleRecords : List TStrategyFromMeta :=
  [⟨["0x00000000000000000000000000000000000000ff",
      "0x00000000000000000000000000000000000000fe"], "first"⟩,
    ⟨["0x00000000000000000000000000000000000000FF"], "second"⟩]

/-- A packer that fails on `keepCRV` and succeeds on every other method. -/
def keepCRVFailingPack : PackFn :=
  fun _ method _ => if method = "keepCRV" then .error "abi: pack failed" else .ok [1, 2, 3, 4]

/-! ## Lemmas on the `Except` monad and on the decoder -/

theorem except_bind_ok_iff {α β : Type} (x : Except Fault α) (f : α → Except Fault β) (b : β) :
    (x >>= f) = .ok b ↔ ∃ a, x = .ok a ∧ f a = .ok b := by
  cases x with
  | error e => simp [bind, Except.bind]
  | ok a => simp [bind, Except.bind]

theorem except_map_bind {α β γ : Type} (u : β → γ) (x : Except Fault α)
    (f : α → Except Fault β) :
    Except.map u (x >>= f) = x >>= fun a => Except.map u (f a) := by
  cases x <;> rfl

theorem assign_bigInt_iff (raw : List Value) (data d : TStrategyMultiCallData)
    (set : TStrategyMultiCallData → Int → TStrategyMultiCallData) :
    (if raw.length = 1 then (do let v ← bigIntAt raw 0; pure (set data v)) else pure data)
        = Except.ok d ↔
      ∃ x, readBigInt raw = .ok x ∧
        d = (match x with
          | some v => set data v
          | none => data) := by
  unfold readBigInt
  by_cases h : raw.length = 1
  · simp only [h, if_true]
    cases bigIntAt raw 0 with
    | error e => simp [bind, Except.bind]
    | ok v => simp [bind, Except.bind, pure, Except.pure, eq_comm]
  · simp [h, pure, Except.pure, eq_comm]

theorem assign_bool_iff (raw : List Value) (data d : TStrategyMultiCallData)
    (set : TStrategyMultiCallData → Bool → TStrategyMultiCallData) :
    (if raw.length = 1 then (do let v ← boolAt raw 0; pure (set data v)) else pure data)
        = Except.ok d ↔
      ∃ x, readBool raw = .ok x ∧
        d = (match x with
          | some v => set data v
          | none => data) := by
  unfold readBool
  by_cases h : raw.length = 1
  · simp only [h, if_true]
    cases boolAt raw 0 with
    | error e => simp [bind, Except.bind]
    | ok v => simp [bind, Except.bind, pure, Except.pure, eq_comm]
  · simp [h, pure, Except.pure, eq_comm]

/-- The single-value stage succeeds exactly when its six reads succeed, and the record is
then the record literal with each field that was read put in place. -/
theorem decodeSingleValues_ok_iff (response : Response) (name : String)
    (d : TStrategyMultiCallData) :
    decodeSingleValues response name = .ok d ↔
      ∃ a b c e k f,
        readBigInt (rawResult response (name ++ "creditAvailable0")) = .ok a ∧
        readBigInt (rawResult response (name ++ "debtOutstanding0")) = .ok b ∧
        readBigInt (rawResult response (name ++ "expectedReturn0")) = .ok c ∧
        readBigInt (rawResult response (name ++ "estimatedTotalAssets")) = .ok e ∧
        readBigInt (rawResult response (name ++ "keepCRV")) = .ok k ∧
        readBool (rawResult response (name ++ "isActive")) = .ok f ∧
        d = { initialData with
                CreditAvailable := some (a.getD 0), DebtOutstanding := some (b.getD 0),
                ExpectedReturn := some (c.getD 0), EstimatedTotalAssets := some (e.getD 0),
                KeepCRV := some (k.getD 0), IsActive := f.getD false } := by
  unfold decodeSingleValues
  simp only [except_bind_ok_iff]
  simp only [assign_bigInt_iff _ _ _ (fun d v => { d with CreditAvailable := some v }),
    assign_bigInt_iff _ _ _ (fun d v => { d with DebtOutstanding := some v }),
    assign_bigInt_iff _ _ _ (fun d v => { d with ExpectedReturn := some v }),
    assign_bigInt_iff _ _ _ (fun d v => { d with EstimatedTotalAssets := some v }),
    assign_bigInt_iff _ _ _ (fun d v => { d with KeepCRV := some v }),
    assign_bool_iff _ _ _ (fun d v => { d with IsActive := v })]
  constructor
  · rintro ⟨d1, ⟨a, ha, rfl⟩, d2, ⟨b, hb, rfl⟩, d3, ⟨c, hc, rfl⟩, d4, ⟨e, he, rfl⟩,
      d5, ⟨k, hk, rfl⟩, d6, ⟨f, hf, rfl⟩, hd⟩
    refine ⟨a, b, c, e, k, f, ha, hb, hc, he, hk, hf, ?_⟩
    cases hd
    cases a <;> cases b <;> cases c <;> cases e <;> cases k <;> cases f <;> rfl
  · rintro ⟨a, b, c, e, k, f, ha, hb, hc, he, hk, hf, rfl⟩
    refine ⟨_, ⟨a, ha, rfl⟩, _, ⟨b, hb, rfl⟩, _, ⟨c, hc, rfl⟩, _, ⟨e, he, rfl⟩,
      _, ⟨k, hk, rfl⟩, _, ⟨f, hf, rfl⟩, ?_⟩
    cases a <;> cases b <;> cases c <;> cases e <;> cases k <;> cases f <;> rfl

theorem decodeSingleValues_statusUnset {response : Response} {name : String}
    {d : TStrategyMultiCallData} (h : decodeSingleValues response name = .ok d) :
    statusUnset d := by
  obtain ⟨a, b, c, e, k, f, -, -, -, -, -, -, rfl⟩ := (decodeSingleValues_ok_iff _ _ _).1 h
  simp [statusUnset, initialData]

theorem decodeData_ok_iff (response : Response) (name version : String)
    (d : TStrategyMultiCallData) :
    decodeData response name version = .ok d ↔
      ∃ d0, decodeSingleValues response name = .ok d0 ∧
        decodeStrategies version (rawResult response (name ++ "strategies")) d0 = .ok d := by
  unfold decodeData
  exact except_bind_ok_iff _ _ _

theorem decodeStep_ok_iff (lib : AddressLib) (response : Response) (m m' : AddrMap)
    (strat : TStrategyList) :
    decodeStep lib response m strat = .ok m' ↔
      ∃ d, decodeData response (lib.toStr strat.Strategy) strat.VaultVersion = .ok d ∧
        m' = m.set (lib.hexToAddress (lib.toStr strat.Strategy)) d := by
  unfold decodeStep
  rw [except_bind_ok_iff]
  simp [pure, Except.pure, eq_comm]

theorem AddrMap.set_same (m : AddrMap) (key : Address) (d : TStrategyMultiCallData) :
    m.set key d key = some d := by
  simp [AddrMap.set]

theorem decodeStrategies_v022 (d : TStrategyMultiCallData) (v0 v1 v2 v3 v4 v5 v6 v7 : Int) :
    decodeStrategies "0.2.2"
      [.bigInt v0, .bigInt v1, .bigInt v2, .bigInt v3, .bigInt v4, .bigInt v5, .bigInt v6,
        .bigInt v7] d =
    .ok { d with
      PerformanceFee := some v0, Activation := some v1, DebtLimit := some v2,
      RateLimit := some v3, LastReport := some v4, TotalDebt := some v5, TotalGain := some v6,
      TotalLoss := some v7 } := by
  rfl

theorem decodeStrategies_v030 (version : String) (hversion : version = "0.3.0" ∨ version = "0.3.1")
    (d : TStrategyMultiCallData) (v0 v1 v2 v3 v4 v5 v6 v7 : Int) :
    decodeStrategies version
      [.bigInt v0, .bigInt v1, .bigInt v2, .bigInt v3, .bigInt v4, .bigInt v5, .bigInt v6,
        .bigInt v7] d =
    .ok { d with
      PerformanceFee := some v0, Activation := some v1, DebtRatio := some v2,
      RateLimit := some v3, LastReport := some v4, TotalDebt := some v5, TotalGain := some v6,
      TotalLoss := some v7 } := by
  rcases hversion with rfl | rfl <;> rfl

theorem decodeStrategies_arity9 (version : String) (d : TStrategyMultiCallData)
    (v0 v1 v2 v3 v4 v5 v6 v7 v8 : Int) :
    decodeStrategies version
      [.bigInt v0, .bigInt v1, .bigInt v2, .bigInt v3, .bigInt v4, .bigInt v5, .bigInt v6,
        .bigInt v7, .bigInt v8] d =
    .ok { d with
      PerformanceFee := some v0, Activation := some v1, DebtRatio := some v2,
      MinDebtPerHarvest := some v3, MaxDebtPerHarvest := some v4, LastReport := some v5,
      TotalDebt := some v6, TotalGain := some v7, TotalLoss := some v8 } := by
  unfold decodeStrategies
  rw [if_neg (by simp), if_neg (by simp), if_pos (by simp)]
  rfl

theorem decodeStrategies_other_arity (version : String) (strategies : List Value)
    (d : TStrategyMultiCallData) (h8 : strategies.length ≠ 8) (h9 : strategies.length ≠ 9) :
    decodeStrategies version strategies d = .ok d := by
  unfold decodeStrategies
  rw [if_neg (fun h => h8 h.2), if_neg (fun h => h8 h.2), if_neg h9]
  rfl

/-! ## The positional mappings of the multi-field status call -/

/-- C1. For a manifest item of version 0.2.2 whose `strategies` result is eight integers
v0..v7, the record stored by its loop iteration has PerformanceFee=v0, Activation=v1,
DebtLimit=v2, RateLimit=v3, LastReport=v4, TotalDebt=v5, TotalGain=v6, TotalLoss=v7, and
DebtRatio, MinDebtPerHarvest and MaxDebtPerHarvest are left unset. -/
theorem strategies_v022_arity8 (lib : AddressLib) (response : Response) (m m' : AddrMap)
    (strat : TStrategyList) (v0 v1 v2 v3 v4 v5 v6 v7 : Int)
    (hversion : strat.VaultVersion = "0.2.2")
    (hraw : rawResult response (lib.toStr strat.Strategy ++ "strategies") =
      [.bigInt v0, .bigInt v1, .bigInt v2, .bigInt v3, .bigInt v4, .bigInt v5, .bigInt v6,
        .bigInt v7])
    (hstep : decodeStep lib response m strat = .ok m') :
    ∃ data, m' (lib.hexToAddress (lib.toStr strat.Strategy)) = some data ∧
      data.PerformanceFee = some v0 ∧ data.Activation = some v1 ∧ data.DebtLimit = some v2 ∧
      data.RateLimit = some v3 ∧ data.LastReport = some v4 ∧ data.TotalDebt = some v5 ∧
      data.TotalGain = some v6 ∧ data.TotalLoss = some v7 ∧
      data.DebtRatio = none ∧ data.MinDebtPerHarvest = none ∧ data.MaxDebtPerHarvest = none := by
  obtain ⟨d, hd, rfl⟩ := (decodeStep_ok_iff _ _ _ _ _).1 hstep
  obtain ⟨d0, hd0, hd1⟩ := (decodeData_ok_iff _ _ _ _).1 hd
  have hu := decodeSingleValues_statusUnset hd0
  rw [hversion, hraw, decodeStrategies_v022] at hd1
  cases hd1
  refine ⟨_, AddrMap.set_same _ _ _, rfl, rfl, rfl, rfl, rfl, rfl, rfl, rfl, ?_, ?_, ?_⟩
  · exact hu.2.2.1
  · exact hu.2.2.2.2.2.1
  · exact hu.2.2.2.2.2.2.1

/-- Scenario A of the specification: version 0.2.2 and the eight values 100..800 give
debtLimit=300 and leave debtRatio unset. -/
theorem strategies_v022_arity8_witness :
    ∃ data, (AddrMap.set (fun _ => none) (hexLib.hexToAddress (hexLib.toStr ⟨255⟩))
        { initialData with
          PerformanceFee := some 100, Activation := some 200, DebtLimit := some 300,
          RateLimit := some 400, LastReport := some 500, TotalDebt := some 600,
          TotalGain := some 700, TotalLoss := some 800 })
        (hexLib.hexToAddress (hexLib.toStr ⟨255⟩)) = some data ∧
      data.PerformanceFee = some 100 ∧ data.Activation = some 200 ∧ data.DebtLimit = some 300 ∧
      data.RateLimit = some 400 ∧ data.LastReport = some 500 ∧ data.TotalDebt = some 600 ∧
      data.TotalGain = some 700 ∧ data.TotalLoss = some 800 ∧
      data.DebtRatio = none ∧ data.MinDebtPerHarvest = none ∧ data.MaxDebtPerHarvest = none :=
  strategies_v022_arity8 hexLib
    [("0x00000000000000000000000000000000000000ffstrategies",
      [.bigInt 100, .bigInt 200, .bigInt 300, .bigInt 400, .bigInt 500, .bigInt 600,
        .bigInt 700, .bigInt 800])]
    (fun _ => none) _ ⟨⟨255⟩, ⟨1⟩, "0.2.2"⟩ 100 200 300 400 500 600 700 800 rfl (by rfl) (by rfl)

/-- C2. For a manifest item of version 0.3.0 or 0.3.1 whose `strategies` result is eight
integers v0..v7, the stored record has the mapping of the 0.2.2 case except that position 2
goes to DebtRatio, and DebtLimit is left unset. -/
theorem strategies_v030_arity8 (lib : AddressLib) (response : Response) (m m' : AddrMap)
    (strat : TStrategyList) (v0 v1 v2 v3 v4 v5 v6 v7 : Int)
    (hversion : strat.VaultVersion = "0.3.0" ∨ strat.VaultVersion = "0.3.1")
    (hraw : rawResult response (lib.toStr strat.Strategy ++ "strategies") =
      [.bigInt v0, .bigInt v1, .bigInt v2, .bigInt v3, .bigInt v4, .bigInt v5, .bigInt v6,
        .bigInt v7])
    (hstep : decodeStep lib response m strat = .ok m') :
    ∃ data, m' (lib.hexToAddress (lib.toStr strat.Strategy)) = some data ∧
      data.PerformanceFee = some v0 ∧ data.Activation = some v1 ∧ data.DebtRatio = some v2 ∧
      data.RateLimit = some v3 ∧ data.LastReport = some v4 ∧ data.TotalDebt = some v5 ∧
      data.TotalGain = some v6 ∧ data.TotalLoss = some v7 ∧
      data.DebtLimit = none ∧ data.MinDebtPerHarvest = none ∧ data.MaxDebtPerHarvest = none := by
  obtain ⟨d, hd, rfl⟩ := (decodeStep_ok_iff _ _ _ _ _).1 hstep
  obtain ⟨d0, hd0, hd1⟩ := (decodeData_ok_iff _ _ _ _).1 hd
  have hu := decodeSingleValues_statusUnset hd0
  rw [hraw, decodeStrategies_v030 _ hversion] at hd1
  cases hd1
  refine ⟨_, AddrMap.set_same _ _ _, rfl, rfl, rfl, rfl, rfl, rfl, rfl, rfl, ?_, ?_, ?_⟩
  · exact hu.2.2.2.1
  · exact hu.2.2.2.2.2.1
  · exact hu.2.2.2.2.2.2.1

/-- Scenario B of the specification: version 0.3.0 and the eight values 100..800 give
debtRatio=300 and leave debtLimit unset. -/
theorem strategies_v030_arity8_witness :
    ∃ data, (AddrMap.set (fun _ => none) (hexLib.hexToAddress (hexLib.toStr ⟨255⟩))
        { initialData with
          PerformanceFee := some 100, Activation := some 200, DebtRatio := some 300,
          RateLimit := some 400, LastReport := some 500, TotalDebt := some 600,
          TotalGain := some 700, TotalLoss := some 800 })
        (hexLib.hexToAddress (hexLib.toStr ⟨255⟩)) = some data ∧
      data.PerformanceFee = some 100 ∧ data.Activation = some 200 ∧ data.DebtRatio = some 300 ∧
      data.RateLimit = some 400 ∧ data.LastReport = some 500 ∧ data.TotalDebt = some 600 ∧
      data.TotalGain = some 700 ∧ data.TotalLoss = some 800 ∧
      data.DebtLimit = none ∧ data.MinDebtPerHarvest = none ∧ data.MaxDebtPerHarvest = none :=
  strategies_v030_arity8 hexLib
    [("0x00000000000000000000000000000000000000ffstrategies",
      [.bigInt 100, .bigInt 200, .bigInt 300, .bigInt 400, .bigInt 500, .bigInt 600,
        .bigInt 700, .bigInt 800])]
    (fun _ => none) _ ⟨⟨255⟩, ⟨1⟩, "0.3.0"⟩ 100 200 300 400 500 600 700 800 (Or.inl rfl)
    (by rfl) (by rfl)

/-- C3. For every manifest item and every version string whatsoever, a `strategies` result
of nine integers v0..v8 gives a stored record with PerformanceFee=v0, Activation=v1,
DebtRatio=v2, MinDebtPerHarvest=v3, MaxDebtPerHarvest=v4, LastReport=v5, TotalDebt=v6,
TotalGain=v7, TotalLoss=v8, with DebtLimit and RateLimit unset. -/
theorem strategies_arity9 (lib : AddressLib) (response : Response) (m m' : AddrMap)
    (strat : TStrategyList) (v0 v1 v2 v3 v4 v5 v6 v7 v8 : Int)
    (hraw : rawResult response (lib.toStr strat.Strategy ++ "strategies") =
      [.bigInt v0, .bigInt v1, .bigInt v2, .bigInt v3, .bigInt v4, .bigInt v5, .bigInt v6,
        .bigInt v7, .bigInt v8])
    (hstep : decodeStep lib response m strat = .ok m') :
    ∃ data, m' (lib.hexToAddress (lib.toStr strat.Strategy)) = some data ∧
      data.PerformanceFee = some v0 ∧ data.Activation = some v1 ∧ data.DebtRatio = some v2 ∧
      data.MinDebtPerHarvest = some v3 ∧ data.MaxDebtPerHarvest = some v4 ∧
      data.LastReport = some v5 ∧ data.TotalDebt = some v6 ∧ data.TotalGain = some v7 ∧
      data.TotalLoss = some v8 ∧ data.DebtLimit = none ∧ data.RateLimit = none := by
  obtain ⟨d, hd, rfl⟩ := (decodeStep_ok_iff _ _ _ _ _).1 hstep
  obtain ⟨d0, hd0, hd1⟩ := (decodeData_ok_iff _ _ _ _).1 hd
  have hu := decodeSingleValues_statusUnset hd0
  rw [hraw, decodeStrategies_arity9] at hd1
  cases hd1
  refine ⟨_, AddrMap.set_same _ _ _, rfl, rfl, rfl, rfl, rfl, rfl, rfl, rfl, rfl, ?_, ?_⟩
  · exact hu.2.2.2.1
  · exact hu.2.2.2.2.1

/-- Scenario C of the specification: the nine values 1..9 under version 0.2.2, a version
that has an eight-value branch of its own, give minDebtPerHarvest=4 and maxDebtPerHarvest=5. -/
theorem strategies_arity9_witness :
    ∃ data, (AddrMap.set (fun _ => none) (hexLib.hexToAddress (hexLib.toStr ⟨255⟩))
        { initialData with
          PerformanceFee := some 1, Activation := some 2, DebtRatio := some 3,
          MinDebtPerHarvest := some 4, MaxDebtPerHarvest := some 5, LastReport := some 6,
          TotalDebt := some 7, TotalGain := some 8, TotalLoss := some 9 })
        (hexLib.hexToAddress (hexLib.toStr ⟨255⟩)) = some data ∧
      data.PerformanceFee = some 1 ∧ data.Activation = some 2 ∧ data.DebtRatio = some 3 ∧
      data.MinDebtPerHarvest = some 4 ∧ data.MaxDebtPerHarvest = some 5 ∧
      data.LastReport = some 6 ∧ data.TotalDebt = some 7 ∧ data.TotalGain = some 8 ∧
      data.TotalLoss = some 9 ∧ data.DebtLimit = none ∧ data.RateLimit = none :=
  strategies_arity9 hexLib
    [("0x00000000000000000000000000000000000000ffstrategies",
      [.bigInt 1, .bigInt 2, .bigInt 3, .bigInt 4, .bigInt 5, .bigInt 6, .bigInt 7, .bigInt 8,
        .bigInt 9])]
    (fun _ => none) _ ⟨⟨255⟩, ⟨1⟩, "0.2.2"⟩ 1 2 3 4 5 6 7 8 9 (by rfl) (by rfl)


theorem except_map_pure {β γ : Type} (u : β → γ) (y : β) :
    Except.map u (pure y : Except Fault β) = pure (u y) := rfl

/-- The multi-field stage never touches a single-value field: it commutes with resetting one. -/
theorem decodeStrategies_reset (F : SingleField) (version : String) (strategies : List Value)
    (d : TStrategyMultiCallData) :
    decodeStrategies version strategies (F.reset d) =
      Except.map F.reset (decodeStrategies version strategies d) := by
  unfold decodeStrategies
  split_ifs <;> simp only [except_map_bind, except_map_pure] <;> cases F <;> rfl

theorem decodeStrategies_singlePart {version : String} {strategies : List Value}
    {d0 d : TStrategyMultiCallData} (h : decodeStrategies version strategies d0 = .ok d) :
    singlePart d = singlePart d0 := by
  have key : Except.map singlePart (decodeStrategies version strategies d0) =
      Except.map (fun _ => singlePart d0) (decodeStrategies version strategies d0) := by
    unfold decodeStrategies
    split_ifs <;> simp only [except_map_bind, except_map_pure] <;> rfl
  rw [h] at key
  exact Except.ok.inj key

theorem string_append_left_cancel {name a b : String} (h : name ++ a = name ++ b) : a = b := by
  have h' := congrArg String.data h
  simp only [String.data_append, List.append_cancel_left_eq] at h'
  exact String.ext h'

theorem SingleField.reset_eq_self_iff (F : SingleField) (d : TStrategyMultiCallData) :
    F.reset d = d ↔ F.atDefault d := by
  cases d
  cases F <;> simp [SingleField.reset, SingleField.atDefault] <;> exact eq_comm

theorem rawResult_of_lookup_none {response : Response} {key : String}
    (h : response.lookup key = none) : rawResult response key = [] := by
  simp [rawResult, h]

theorem readBigInt_of_length_ne_one {raw : List Value} (h : raw.length ≠ 1) :
    readBigInt raw = .ok none := by
  simp [readBigInt, h]

theorem readBool_of_length_ne_one {raw : List Value} (h : raw.length ≠ 1) :
    readBool raw = .ok none := by
  simp [readBool, h]

/-- The single-value stage reads the response only under the six single-value keys. -/
theorem decodeSingleValues_congr {r1 r2 : Response} {name : String}
    (h : ∀ F : SingleField, rawResult r1 (name ++ F.method) = rawResult r2 (name ++ F.method)) :
    decodeSingleValues r1 name = decodeSingleValues r2 name := by
  have h1 := h .CreditAvailable
  have h2 := h .DebtOutstanding
  have h3 := h .ExpectedReturn
  have h4 := h .EstimatedTotalAssets
  have h5 := h .KeepCRV
  have h6 := h .IsActive
  simp only [SingleField.method] at h1 h2 h3 h4 h5 h6
  unfold decodeSingleValues
  rw [h1, h2, h3, h4, h5, h6]

theorem SingleField.method_ne_strategies (F : SingleField) : F.method ≠ "strategies" := by
  cases F <;> decide

theorem SingleField.method_injective {F G : SingleField} (h : F.method = G.method) : F = G := by
  cases F <;> cases G <;> first | rfl | (exact absurd h (by decide))

/-- After the single-value stage, a field whose raw result is not of length one is at its
default. -/
theorem decodeSingleValues_atDefault {response : Response} {name : String}
    {d : TStrategyMultiCallData} (F : SingleField)
    (hlen : (rawResult response (name ++ F.method)).length ≠ 1)
    (h : decodeSingleValues response name = .ok d) : F.atDefault d := by
  obtain ⟨a, b, c, e, k, f, ha, hb, hc, he, hk, hf, rfl⟩ := (decodeSingleValues_ok_iff _ _ _).1 h
  cases F <;> simp only [SingleField.method] at hlen
  · rw [readBigInt_of_length_ne_one hlen] at ha; cases ha; rfl
  · rw [readBigInt_of_length_ne_one hlen] at hb; cases hb; rfl
  · rw [readBigInt_of_length_ne_one hlen] at hc; cases hc; rfl
  · rw [readBigInt_of_length_ne_one hlen] at he; cases he; rfl
  · rw [readBigInt_of_length_ne_one hlen] at hk; cases hk; rfl
  · rw [readBool_of_length_ne_one hlen] at hf; cases hf; rfl

/-- Two responses that agree on every key but the one of `F` give, after the single-value
stage, records that agree on every field but `F`. -/
theorem decodeSingleValues_frame {r1 r2 : Response} {name : String}
    {d1 d2 : TStrategyMultiCallData} (F : SingleField)
    (hagree : ∀ key, key ≠ name ++ F.method → rawResult r1 key = rawResult r2 key)
    (h1 : decodeSingleValues r1 name = .ok d1) (h2 : decodeSingleValues r2 name = .ok d2) :
    F.reset d1 = F.reset d2 := by
  have hG : ∀ G : SingleField, G ≠ F →
      rawResult r1 (name ++ G.method) = rawResult r2 (name ++ G.method) := fun G hne =>
    hagree _ (fun h => hne (SingleField.method_injective (string_append_left_cancel h)))
  obtain ⟨a, b, c, e, k, f, ha, hb, hc, he, hk, hf, rfl⟩ := (decodeSingleValues_ok_iff _ _ _).1 h1
  obtain ⟨a', b', c', e', k', f', ha', hb', hc', he', hk', hf', rfl⟩ :=
    (decodeSingleValues_ok_iff _ _ _).1 h2
  have eqa : F ≠ .CreditAvailable → a = a' := fun hne => by
    have := hG .CreditAvailable (Ne.symm hne)
    simp only [SingleField.method] at this
    rw [this, ha'] at ha
    exact (Except.ok.inj ha).symm
  have eqb : F ≠ .DebtOutstanding → b = b' := fun hne => by
    have := hG .DebtOutstanding (Ne.symm hne)
    simp only [SingleField.method] at this
    rw [this, hb'] at hb
    exact (Except.ok.inj hb).symm
  have eqc : F ≠ .ExpectedReturn → c = c' := fun hne => by
    have := hG .ExpectedReturn (Ne.symm hne)
    simp only [SingleField.method] at this
    rw [this, hc'] at hc
    exact (Except.ok.inj hc).symm
  have eqe : F ≠ .EstimatedTotalAssets → e = e' := fun hne => by
    have := hG .EstimatedTotalAssets (Ne.symm hne)
    simp only [SingleField.method] at this
    rw [this, he'] at he
    exact (Except.ok.inj he).symm
  have eqk : F ≠ .KeepCRV → k = k' := fun hne => by
    have := hG .KeepCRV (Ne.symm hne)
    simp only [SingleField.method] at this
    rw [this, hk'] at hk
    exact (Except.ok.inj hk).symm
  have eqf : F ≠ .IsActive → f = f' := fun hne => by
    have := hG .IsActive (Ne.symm hne)
    simp only [SingleField.method] at this
    rw [this, hf'] at hf
    exact (Except.ok.inj hf).symm
  cases F
  · rw [eqb (by decide), eqc (by decide), eqe (by decide), eqk (by decide), eqf (by decide)]
    rfl
  · rw [eqa (by decide), eqc (by decide), eqe (by decide), eqk (by decide), eqf (by decide)]
    rfl
  · rw [eqa (by decide), eqb (by decide), eqe (by decide), eqk (by decide), eqf (by decide)]
    rfl
  · rw [eqa (by decide), eqb (by decide), eqc (by decide), eqk (by decide), eqf (by decide)]
    rfl
  · rw [eqa (by decide), eqb (by decide), eqc (by decide), eqe (by decide), eqf (by decide)]
    rfl
  · rw [eqa (by decide), eqb (by decide), eqc (by decide), eqe (by decide), eqk (by decide)]
    rfl

/-! ## Degraded results: other arities, absent keys, single-value frame -/

/-- C4. When the `strategies` result has a length that is neither 8 nor 9 (an absent key has
length 0), the multi-field stage raises no error and changes nothing, whatever the version;
the decoding is that of the six single-value fields alone; the eleven status fields of the
record are unset; and the six single-value fields are what they are under any other
`strategies` result and version. -/
theorem other_arity_leaves_status_unset (response : Response) (name version : String)
    (h8 : (rawResult response (name ++ "strategies")).length ≠ 8)
    (h9 : (rawResult response (name ++ "strategies")).length ≠ 9) :
    (∀ d0, decodeStrategies version (rawResult response (name ++ "strategies")) d0 = .ok d0) ∧
    decodeData response name version = decodeSingleValues response name ∧
    (∀ d, decodeData response name version = .ok d → statusUnset d) ∧
    (∀ response' version' d d',
      (∀ key, key ≠ name ++ "strategies" → rawResult response' key = rawResult response key) →
      decodeData response name version = .ok d →
      decodeData response' name version' = .ok d' →
      singlePart d = singlePart d') := by
  have hstage : ∀ d0,
      decodeStrategies version (rawResult response (name ++ "strategies")) d0 = .ok d0 :=
    fun d0 => decodeStrategies_other_arity _ _ _ h8 h9
  have hdata : decodeData response name version = decodeSingleValues response name := by
    unfold decodeData
    cases hs : decodeSingleValues response name with
    | error e => rfl
    | ok d0 => exact hstage d0
  refine ⟨hstage, hdata, ?_, ?_⟩
  · intro d hd
    rw [hdata] at hd
    exact decodeSingleValues_statusUnset hd
  · intro response' version' d d' hagree hd hd'
    rw [hdata] at hd
    obtain ⟨d0, hd0, hd1⟩ := (decodeData_ok_iff _ _ _ _).1 hd'
    have hsame : decodeSingleValues response' name = decodeSingleValues response name :=
      decodeSingleValues_congr (fun F => hagree _ (fun h =>
        F.method_ne_strategies (string_append_left_cancel h)))
    rw [hsame, hd] at hd0
    cases hd0
    exact (decodeStrategies_singlePart hd1).symm

/-- The theorem of C4 at a `strategies` result of length three holding a boolean: the
decoding succeeds, with the credit read and the status fields unset. -/
theorem other_arity_leaves_status_unset_witness :
    (rawResult [("0xffcreditAvailable0", [.bigInt 5]),
        ("0xffstrategies", [.boolean true, .bigInt 1, .bigInt 2])] ("0xff" ++ "strategies")).length ≠ 8 ∧
    decodeData [("0xffcreditAvailable0", [.bigInt 5]),
        ("0xffstrategies", [.boolean true, .bigInt 1, .bigInt 2])] "0xff" "0.2.2" =
      .ok { initialData with CreditAvailable := some 5 } :=
  ⟨by decide,
    (other_arity_leaves_status_unset [("0xffcreditAvailable0", [.bigInt 5]),
        ("0xffstrategies", [.boolean true, .bigInt 1, .bigInt 2])] "0xff" "0.2.2"
      (by decide) (by decide)).2.1.trans (by rfl)⟩


theorem decodeSingleValues_absent {response : Response} {name : String}
    (h : ∀ F : SingleField, rawResult response (name ++ F.method) = []) :
    decodeSingleValues response name = .ok initialData := by
  have h1 := h .CreditAvailable
  have h2 := h .DebtOutstanding
  have h3 := h .ExpectedReturn
  have h4 := h .EstimatedTotalAssets
  have h5 := h .KeepCRV
  have h6 := h .IsActive
  simp only [SingleField.method] at h1 h2 h3 h4 h5 h6
  unfold decodeSingleValues
  rw [h1, h2, h3, h4, h5, h6]
  rfl

theorem SingleField.method_mem (F : SingleField) : F.method ∈ methodNames := by
  cases F <;> decide

/-- C5, as amended. When the response holds none of the seven keys of a manifest item, the
iteration stores a record whose five single-value numeric fields are zero and whose active
flag is false, while the eleven multi-field status fields are unset (nil, not zero). -/
theorem absent_results_defaults (lib : AddressLib) (response : Response) (m : AddrMap)
    (strat : TStrategyList)
    (habsent : ∀ method ∈ methodNames,
      response.lookup (lib.toStr strat.Strategy ++ method) = none) :
    ∃ data,
      decodeStep lib response m strat =
        .ok (m.set (lib.hexToAddress (lib.toStr strat.Strategy)) data) ∧
      data.CreditAvailable = some 0 ∧ data.DebtOutstanding = some 0 ∧
      data.ExpectedReturn = some 0 ∧ data.EstimatedTotalAssets = some 0 ∧
      data.KeepCRV = some 0 ∧ data.IsActive = false ∧ statusUnset data := by
  have hsingle : decodeSingleValues response (lib.toStr strat.Strategy) = .ok initialData :=
    decodeSingleValues_absent (fun F => rawResult_of_lookup_none (habsent _ F.method_mem))
  have hstrategies : rawResult response (lib.toStr strat.Strategy ++ "strategies") = [] :=
    rawResult_of_lookup_none (habsent _ (by decide))
  refine ⟨initialData, ?_, rfl, rfl, rfl, rfl, rfl, rfl, ?_⟩
  · refine (decodeStep_ok_iff _ _ _ _ _).2 ⟨initialData, ?_, rfl⟩
    refine (decodeData_ok_iff _ _ _ _).2 ⟨initialData, hsingle, ?_⟩
    rw [hstrategies]
    exact decodeStrategies_other_arity _ _ _ (by decide) (by decide)
  · simp [statusUnset, initialData]

/-- The amended C5 on an empty response and the item of address 255. -/
theorem absent_results_defaults_witness :
    (∀ method ∈ methodNames,
      List.lookup (hexLib.toStr ⟨255⟩ ++ method) ([] : Response) = none) ∧
    ∃ data,
      decodeStep hexLib [] (fun _ => none) ⟨⟨255⟩, ⟨1⟩, "0.4.3"⟩ =
        .ok (AddrMap.set (fun _ => none) (hexLib.hexToAddress (hexLib.toStr ⟨255⟩)) data) ∧
      data.CreditAvailable = some 0 ∧ data.DebtOutstanding = some 0 ∧
      data.ExpectedReturn = some 0 ∧ data.EstimatedTotalAssets = some 0 ∧
      data.KeepCRV = some 0 ∧ data.IsActive = false ∧ statusUnset data :=
  ⟨fun _ _ => rfl,
    absent_results_defaults hexLib [] (fun _ => none) ⟨⟨255⟩, ⟨1⟩, "0.4.3"⟩ (fun _ _ => rfl)⟩

/-- C5 as stated fails. On an empty response the record stored for the item of address 255
has a nil performance fee (and ten more nil status fields), not the integer zero. -/
theorem absent_results_status_not_zero :
    decodeStep hexLib [] (fun _ => none) ⟨⟨255⟩, ⟨1⟩, "0.4.3"⟩ =
      .ok (AddrMap.set (fun _ => none) (hexLib.hexToAddress (hexLib.toStr ⟨255⟩)) initialData) ∧
    (AddrMap.set (fun _ => none) (hexLib.hexToAddress (hexLib.toStr ⟨255⟩)) initialData)
      (hexLib.hexToAddress (hexLib.toStr ⟨255⟩)) = some initialData ∧
    initialData.PerformanceFee = none ∧ initialData.PerformanceFee ≠ some 0 ∧
    initialData.TotalDebt ≠ some 0 :=
  ⟨by rfl, AddrMap.set_same _ _ _, rfl, by decide, by decide⟩

/-- C6. For each single-value field F and every item name and version: when the raw result
under the key of F is absent or of a length other than 1, the decoded record has F at its
zero/false default; and two responses that agree on every key other than the key of F give
records that agree on every field other than F. -/
theorem single_value_default_and_frame (F : SingleField) (name version : String) :
    (∀ response d, response.lookup (name ++ F.method) = none →
      decodeData response name version = .ok d → F.atDefault d) ∧
    (∀ response d, (rawResult response (name ++ F.method)).length ≠ 1 →
      decodeData response name version = .ok d → F.atDefault d) ∧
    (∀ r1 r2 d1 d2,
      (∀ key, key ≠ name ++ F.method → rawResult r1 key = rawResult r2 key) →
      decodeData r1 name version = .ok d1 → decodeData r2 name version = .ok d2 →
      F.reset d1 = F.reset d2) := by
  have hlen : ∀ response d, (rawResult response (name ++ F.method)).length ≠ 1 →
      decodeData response name version = .ok d → F.atDefault d := by
    intro response d hne hd
    obtain ⟨d0, hd0, hd1⟩ := (decodeData_ok_iff _ _ _ _).1 hd
    have h0 : F.reset d0 = d0 :=
      (F.reset_eq_self_iff d0).2 (decodeSingleValues_atDefault F hne hd0)
    have h1 := decodeStrategies_reset F version (rawResult response (name ++ "strategies")) d0
    rw [h0, hd1] at h1
    exact (F.reset_eq_self_iff d).1 (Except.ok.inj h1).symm
  refine ⟨?_, hlen, ?_⟩
  · intro response d habsent hd
    refine hlen response d ?_ hd
    rw [rawResult_of_lookup_none habsent]
    decide
  · intro r1 r2 d1 d2 hagree h1 h2
    obtain ⟨e1, he1, hs1⟩ := (decodeData_ok_iff _ _ _ _).1 h1
    obtain ⟨e2, he2, hs2⟩ := (decodeData_ok_iff _ _ _ _).1 h2
    have hframe : F.reset e1 = F.reset e2 := decodeSingleValues_frame F hagree he1 he2
    have hraw : rawResult r1 (name ++ "strategies") = rawResult r2 (name ++ "strategies") :=
      hagree _ (fun h => F.method_ne_strategies (string_append_left_cancel h).symm)
    have k1 := decodeStrategies_reset F version (rawResult r1 (name ++ "strategies")) e1
    have k2 := decodeStrategies_reset F version (rawResult r2 (name ++ "strategies")) e2
    rw [hs1] at k1
    rw [hs2] at k2
    rw [hframe, hraw, k2] at k1
    exact (Except.ok.inj k1).symm

/-- The theorem of C6 for the active flag: one response has `isActive` of length two, the
other holds `true`; the first record has the flag at false and the two records agree on
every other field. -/
theorem single_value_default_and_frame_witness :
    (rawResult [("0xffkeepCRV", [.bigInt 7]), ("0xffisActive", [.boolean true, .boolean true])]
      ("0xff" ++ SingleField.IsActive.method)).length ≠ 1 ∧
    decodeData [("0xffkeepCRV", [.bigInt 7]), ("0xffisActive", [.boolean true, .boolean true])]
      "0xff" "0.4.3" = .ok { initialData with KeepCRV := some 7 } ∧
    decodeData [("0xffkeepCRV", [.bigInt 7]), ("0xffisActive", [.boolean true])]
      "0xff" "0.4.3" = .ok { initialData with KeepCRV := some 7, IsActive := true } ∧
    SingleField.IsActive.atDefault { initialData with KeepCRV := some 7 } ∧
    SingleField.IsActive.reset { initialData with KeepCRV := some 7 } =
      SingleField.IsActive.reset { initialData with KeepCRV := some 7, IsActive := true } :=
  ⟨by decide, by rfl, by rfl,
    (single_value_default_and_frame .IsActive "0xff" "0.4.3").2.1
      [("0xffkeepCRV", [.bigInt 7]), ("0xffisActive", [.boolean true, .boolean true])] _
      (by decide) (by rfl),
    (single_value_default_and_frame .IsActive "0xff" "0.4.3").2.2
      [("0xffkeepCRV", [.bigInt 7]), ("0xffisActive", [.boolean true, .boolean true])]
      [("0xffkeepCRV", [.bigInt 7]), ("0xffisActive", [.boolean true])] _ _
      (by
        intro key hkey
        have hne : ¬ (key == "0xffisActive") = true := fun h => hkey (by simpa using h)
        simp [rawResult, List.lookup, hne])
      (by rfl) (by rfl)⟩


theorem bigIntAt_ok {values : List Value} {i : Nat} (hi : i < values.length)
    (h : ∀ v ∈ values, v.isBigInt = true) : ∃ n, bigIntAt values i = .ok n := by
  have hget : values[i]? = some values[i] := List.getElem?_eq_getElem hi
  have hv := h values[i] (List.getElem_mem hi)
  unfold bigIntAt index
  rw [hget]
  cases hx : values[i] with
  | bigInt n => exact ⟨n, rfl⟩
  | boolean b => rw [hx] at hv; cases hv
  | other s => rw [hx] at hv; cases hv

theorem boolAt_ok {values : List Value} {i : Nat} (hi : i < values.length)
    (h : ∀ v ∈ values, v.isBoolean = true) : ∃ b, boolAt values i = .ok b := by
  have hget : values[i]? = some values[i] := List.getElem?_eq_getElem hi
  have hv := h values[i] (List.getElem_mem hi)
  unfold boolAt index
  rw [hget]
  cases hx : values[i] with
  | bigInt n => rw [hx] at hv; cases hv
  | boolean b => exact ⟨b, rfl⟩
  | other s => rw [hx] at hv; cases hv

theorem readBigInt_ok {raw : List Value}
    (h : raw.length = 1 → ∀ v ∈ raw, v.isBigInt = true) :
    ∃ x, readBigInt raw = .ok x := by
  unfold readBigInt
  by_cases hlen : raw.length = 1
  · obtain ⟨n, hn⟩ := bigIntAt_ok (i := 0) (by omega) (h hlen)
    rw [if_pos hlen, hn]
    exact ⟨_, rfl⟩
  · rw [if_neg hlen]
    exact ⟨_, rfl⟩

theorem readBool_ok {raw : List Value}
    (h : raw.length = 1 → ∀ v ∈ raw, v.isBoolean = true) :
    ∃ x, readBool raw = .ok x := by
  unfold readBool
  by_cases hlen : raw.length = 1
  · obtain ⟨n, hn⟩ := boolAt_ok (i := 0) (by omega) (h hlen)
    rw [if_pos hlen, hn]
    exact ⟨_, rfl⟩
  · rw [if_neg hlen]
    exact ⟨_, rfl⟩

theorem decodeStrategies_ok (version : String) {strategies : List Value}
    (htaken : branchTaken version strategies → ∀ v ∈ strategies, v.isBigInt = true)
    (d0 : TStrategyMultiCallData) :
    ∃ d, decodeStrategies version strategies d0 = .ok d := by
  unfold decodeStrategies
  split_ifs with h1 h2 h3
  · have h := htaken (Or.inl h1)
    obtain ⟨n0, e0⟩ := bigIntAt_ok (i := 0) (by omega) h
    obtain ⟨n1, e1⟩ := bigIntAt_ok (i := 1) (by omega) h
    obtain ⟨n2, e2⟩ := bigIntAt_ok (i := 2) (by omega) h
    obtain ⟨n3, e3⟩ := bigIntAt_ok (i := 3) (by omega) h
    obtain ⟨n4, e4⟩ := bigIntAt_ok (i := 4) (by omega) h
    obtain ⟨n5, e5⟩ := bigIntAt_ok (i := 5) (by omega) h
    obtain ⟨n6, e6⟩ := bigIntAt_ok (i := 6) (by omega) h
    obtain ⟨n7, e7⟩ := bigIntAt_ok (i := 7) (by omega) h
    rw [e0, e1, e2, e3, e4, e5, e6, e7]
    exact ⟨_, rfl⟩
  · have h := htaken (Or.inr (Or.inl h2))
    obtain ⟨n0, e0⟩ := bigIntAt_ok (i := 0) (by omega) h
    obtain ⟨n1, e1⟩ := bigIntAt_ok (i := 1) (by omega) h
    obtain ⟨n2, e2⟩ := bigIntAt_ok (i := 2) (by omega) h
    obtain ⟨n3, e3⟩ := bigIntAt_ok (i := 3) (by omega) h
    obtain ⟨n4, e4⟩ := bigIntAt_ok (i := 4) (by omega) h
    obtain ⟨n5, e5⟩ := bigIntAt_ok (i := 5) (by omega) h
    obtain ⟨n6, e6⟩ := bigIntAt_ok (i := 6) (by omega) h
    obtain ⟨n7, e7⟩ := bigIntAt_ok (i := 7) (by omega) h
    rw [e0, e1, e2, e3, e4, e5, e6, e7]
    exact ⟨_, rfl⟩
  · have h := htaken (Or.inr (Or.inr h3))
    obtain ⟨n0, e0⟩ := bigIntAt_ok (i := 0) (by omega) h
    obtain ⟨n1, e1⟩ := bigIntAt_ok (i := 1) (by omega) h
    obtain ⟨n2, e2⟩ := bigIntAt_ok (i := 2) (by omega) h
    obtain ⟨n3, e3⟩ := bigIntAt_ok (i := 3) (by omega) h
    obtain ⟨n4, e4⟩ := bigIntAt_ok (i := 4) (by omega) h
    obtain ⟨n5, e5⟩ := bigIntAt_ok (i := 5) (by omega) h
    obtain ⟨n6, e6⟩ := bigIntAt_ok (i := 6) (by omega) h
    obtain ⟨n7, e7⟩ := bigIntAt_ok (i := 7) (by omega) h
    obtain ⟨n8, e8⟩ := bigIntAt_ok (i := 8) (by omega) h
    rw [e0, e1, e2, e3, e4, e5, e6, e7, e8]
    exact ⟨_, rfl⟩
  · exact ⟨_, rfl⟩

theorem decodeData_ok_of_wellTyped {response : Response} {name version : String}
    (h : wellTyped response name version) :
    ∃ d, decodeData response name version = .ok d := by
  obtain ⟨hint, hbool, hstrategies⟩ := h
  obtain ⟨a, ha⟩ := readBigInt_ok (hint "creditAvailable0" (by decide))
  obtain ⟨b, hb⟩ := readBigInt_ok (hint "debtOutstanding0" (by decide))
  obtain ⟨c, hc⟩ := readBigInt_ok (hint "expectedReturn0" (by decide))
  obtain ⟨e, he⟩ := readBigInt_ok (hint "estimatedTotalAssets" (by decide))
  obtain ⟨k, hk⟩ := readBigInt_ok (hint "keepCRV" (by decide))
  obtain ⟨f, hf⟩ := readBool_ok hbool
  obtain ⟨d, hd⟩ := decodeStrategies_ok version hstrategies
    { initialData with
        CreditAvailable := some (a.getD 0), DebtOutstanding := some (b.getD 0),
        ExpectedReturn := some (c.getD 0), EstimatedTotalAssets := some (e.getD 0),
        KeepCRV := some (k.getD 0), IsActive := f.getD false }
  exact ⟨d, (decodeData_ok_iff _ _ _ _).2 ⟨_,
    (decodeSingleValues_ok_iff _ _ _).2 ⟨a, b, c, e, k, f, ha, hb, hc, he, hk, hf, rfl⟩, hd⟩⟩

theorem AddrMap.set_isSome (m : AddrMap) (key : Address) (d : TStrategyMultiCallData)
    (a : Address) (h : (m a).isSome = true) : (m.set key d a).isSome = true := by
  unfold AddrMap.set
  split_ifs
  · rfl
  · exact h

/-- The loop never removes an entry of the map. -/
theorem decodeLoop_keeps (lib : AddressLib) (response : Response)
    (strategyList : List TStrategyList) :
    ∀ (m m' : AddrMap) (a : Address), decodeLoop lib response m strategyList = .ok m' →
      (m a).isSome = true → (m' a).isSome = true := by
  induction strategyList with
  | nil =>
    intro m m' a h ha
    cases h
    exact ha
  | cons strat rest ih =>
    intro m m' a h ha
    unfold decodeLoop at h
    obtain ⟨m1, h1, h2⟩ := (except_bind_ok_iff _ _ _).1 h
    obtain ⟨d, -, rfl⟩ := (decodeStep_ok_iff _ _ _ _ _).1 h1
    exact ih _ _ a h2 (AddrMap.set_isSome _ _ _ _ ha)

/-! ## Isolation of decode failures -/

/-- C7, as amended. For every manifest and every response in which each raw result the
decoder reads elements of (a single-value result of length one, a `strategies` result for
which a branch is taken) holds only elements of the asserted dynamic type, the decoding
loop does not fail and the resulting map holds a record for every manifest item (under the
key the loop computes for it), whatever the lengths of the results. -/
theorem decodeLoop_ok_of_wellTyped (lib : AddressLib) (response : Response)
    (strategyList : List TStrategyList) (m : AddrMap)
    (hwt : ∀ strat ∈ strategyList,
      wellTyped response (lib.toStr strat.Strategy) strat.VaultVersion) :
    ∃ m', decodeLoop lib response m strategyList = .ok m' ∧
      ∀ strat ∈ strategyList,
        (m' (lib.hexToAddress (lib.toStr strat.Strategy))).isSome = true := by
  induction strategyList generalizing m with
  | nil => exact ⟨m, rfl, fun _ h => absurd h (List.not_mem_nil _)⟩
  | cons strat rest ih =>
    obtain ⟨d, hd⟩ := decodeData_ok_of_wellTyped (hwt strat (List.mem_cons_self _ _))
    have hstep : decodeStep lib response m strat =
        .ok (m.set (lib.hexToAddress (lib.toStr strat.Strategy)) d) :=
      (decodeStep_ok_iff _ _ _ _ _).2 ⟨d, hd, rfl⟩
    obtain ⟨m', hm', hall⟩ := ih (m.set (lib.hexToAddress (lib.toStr strat.Strategy)) d)
      (fun s hs => hwt s (List.mem_cons_of_mem _ hs))
    refine ⟨m', ?_, ?_⟩
    · unfold decodeLoop
      exact (except_bind_ok_iff _ _ _).2 ⟨_, hstep, hm'⟩
    · intro s hs
      rcases List.mem_cons.1 hs with rfl | hs'
      · exact decodeLoop_keeps lib response rest _ _ _ hm' (by rw [AddrMap.set_same]; rfl)
      · exact hall s hs'

/-- The amended C7 on a manifest of two items: the results read are well typed, and a
`strategies` result of length two that holds a boolean is never read. -/
theorem decodeLoop_ok_of_wellTyped_witness :
    (∀ strat ∈ [(⟨⟨255⟩, ⟨1⟩, "0.4.3"⟩ : TStrategyList), ⟨⟨254⟩, ⟨1⟩, "0.3.0"⟩],
      wellTyped [(hexLib.toStr ⟨255⟩ ++ "isActive", [.boolean true]),
        (hexLib.toStr ⟨254⟩ ++ "keepCRV", [.bigInt 3]),
        (hexLib.toStr ⟨254⟩ ++ "strategies", [.boolean false, .bigInt 1])]
        (hexLib.toStr strat.Strategy) strat.VaultVersion) ∧
    ∃ m', decodeLoop hexLib [(hexLib.toStr ⟨255⟩ ++ "isActive", [.boolean true]),
        (hexLib.toStr ⟨254⟩ ++ "keepCRV", [.bigInt 3]),
        (hexLib.toStr ⟨254⟩ ++ "strategies", [.boolean false, .bigInt 1])] (fun _ => none)
        [⟨⟨255⟩, ⟨1⟩, "0.4.3"⟩, ⟨⟨254⟩, ⟨1⟩, "0.3.0"⟩] = .ok m' ∧
      ∀ strat ∈ [(⟨⟨255⟩, ⟨1⟩, "0.4.3"⟩ : TStrategyList), ⟨⟨254⟩, ⟨1⟩, "0.3.0"⟩],
        (m' (hexLib.hexToAddress (hexLib.toStr strat.Strategy))).isSome = true :=
  have hwt : ∀ strat ∈ [(⟨⟨255⟩, ⟨1⟩, "0.4.3"⟩ : TStrategyList), ⟨⟨254⟩, ⟨1⟩, "0.3.0"⟩],
      wellTyped [(hexLib.toStr ⟨255⟩ ++ "isActive", [.boolean true]),
        (hexLib.toStr ⟨254⟩ ++ "keepCRV", [.bigInt 3]),
        (hexLib.toStr ⟨254⟩ ++ "strategies", [.boolean false, .bigInt 1])]
        (hexLib.toStr strat.Strategy) strat.VaultVersion := by
    unfold wellTyped branchTaken
    decide
  ⟨hwt, decodeLoop_ok_of_wellTyped hexLib _ _ (fun _ => none) hwt⟩

/-- C7 as stated fails. In a manifest of two items, a boolean where the integer of
`creditAvailable0` is expected for the first item makes the type assertion panic: the loop
ends with that panic and no record is stored, not even for the second, well-typed item. -/
theorem decodeLoop_ill_typed_fails :
    decodeLoop hexLib [(hexLib.toStr ⟨255⟩ ++ "creditAvailable0", [.boolean true])]
      (fun _ => none) [⟨⟨255⟩, ⟨1⟩, "0.4.3"⟩, ⟨⟨254⟩, ⟨1⟩, "0.4.3"⟩] = .error .typeAssertion ∧
    decodeLoop hexLib [(hexLib.toStr ⟨255⟩ ++ "isActive", [.bigInt 1])]
      (fun _ => none) [⟨⟨255⟩, ⟨1⟩, "0.4.3"⟩, ⟨⟨254⟩, ⟨1⟩, "0.4.3"⟩] = .error .typeAssertion :=
  ⟨by rfl, by rfl⟩

/-- One pass of the loop body appends the seven descriptors of the item, in source order. -/
theorem appendCalls_eq (lib : AddressLib) (pack : PackFn) (calls : List Call)
    (strat : TStrategyList) :
    appendCalls lib pack calls strat = calls ++
      [getCreditAvailable pack (lib.toStr strat.Strategy) strat.Vault strat.Strategy strat.VaultVersion,
       getDebtOutstanding pack (lib.toStr strat.Strategy) strat.Vault strat.Strategy strat.VaultVersion,
       getExpectedReturn pack (lib.toStr strat.Strategy) strat.Vault strat.Strategy strat.VaultVersion,
       getStrategies pack (lib.toStr strat.Strategy) strat.Vault strat.Strategy strat.VaultVersion,
       getStategyEstimatedTotalAsset pack (lib.toStr strat.Strategy) strat.Strategy strat.VaultVersion,
       getStategyIsActive pack (lib.toStr strat.Strategy) strat.Strategy strat.VaultVersion,
       getStategyKeepCRV pack (lib.toStr strat.Strategy) strat.Strategy strat.VaultVersion] := by
  simp [appendCalls]

theorem foldl_appendCalls_length (lib : AddressLib) (pack : PackFn)
    (strategyList : List TStrategyList) :
    ∀ calls : List Call,
      (strategyList.foldl (appendCalls lib pack) calls).length =
        calls.length + 7 * strategyList.length := by
  induction strategyList with
  | nil => intro calls; simp
  | cons strat rest ih =>
    intro calls
    rw [List.foldl_cons, ih, appendCalls_eq]
    simp only [List.length_append, List.length_cons, List.length_nil]
    omega

theorem foldl_appendCalls_map (lib : AddressLib) (pack : PackFn)
    (strategyList : List TStrategyList) :
    ∀ calls : List Call,
      (strategyList.foldl (appendCalls lib pack) calls).map
          (fun c => (c.Method, c.Name, c.Version)) =
        calls.map (fun c => (c.Method, c.Name, c.Version)) ++
          strategyList.flatMap (fun strat =>
            methodNames.map (fun method => (method, lib.toStr strat.Strategy, strat.VaultVersion))) := by
  induction strategyList with
  | nil => intro calls; simp
  | cons strat rest ih =>
    intro calls
    rw [List.foldl_cons, ih, appendCalls_eq]
    simp [methodNames, getCreditAvailable, getDebtOutstanding, getExpectedReturn, getStrategies,
      getStategyEstimatedTotalAsset, getStategyIsActive, getStategyKeepCRV]

/-! ## The call list -/

/-- C9. For a manifest of n items the call list has exactly 7·n descriptors, grouped per
item in manifest order; within a group the method names are creditAvailable0,
debtOutstanding0, expectedReturn0, strategies, estimatedTotalAssets, isActive, keepCRV in
this order, and every descriptor of the group carries the address string of the item as
Name and its VaultVersion as Version. -/
theorem buildCalls_shape (lib : AddressLib) (pack : PackFn) (strategyList : List TStrategyList) :
    (buildCalls lib pack strategyList).length = 7 * strategyList.length ∧
    (buildCalls lib pack strategyList).map (fun c => (c.Method, c.Name, c.Version)) =
      strategyList.flatMap (fun strat =>
        methodNames.map (fun method => (method, lib.toStr strat.Strategy, strat.VaultVersion))) := by
  unfold buildCalls
  constructor
  · rw [foldl_appendCalls_length]
    simp
  · rw [foldl_appendCalls_map]
    simp

/-- C10. `getStrategies` dispatches three ways on the version string: the v0.2.2 ABI for
"0.2.2", the v0.3.0 ABI for "0.3.0" and "0.3.1", the current vault ABI for every other
string; in all cases Method is "strategies", Target is the container address, Name and
Version are the inputs unchanged. -/
theorem getStrategies_dispatch (pack : PackFn) (name : String)
    (contractAddress strategyAddress : Address) (version : String) :
    (version = "0.2.2" →
      (getStrategies pack name contractAddress strategyAddress version).Abi
        = .YEARN_VAULT_V022_ABI) ∧
    (version = "0.3.0" ∨ version = "0.3.1" →
      (getStrategies pack name contractAddress strategyAddress version).Abi
        = .YEARN_VAULT_V030_ABI) ∧
    (version ≠ "0.2.2" → version ≠ "0.3.0" → version ≠ "0.3.1" →
      (getStrategies pack name contractAddress strategyAddress version).Abi
        = .yearnVaultABI) ∧
    (getStrategies pack name contractAddress strategyAddress version).Method = "strategies" ∧
    (getStrategies pack name contractAddress strategyAddress version).Target = contractAddress ∧
    (getStrategies pack name contractAddress strategyAddress version).Name = name ∧
    (getStrategies pack name contractAddress strategyAddress version).Version = version := by
  refine ⟨?_, ?_, ?_, rfl, rfl, rfl, rfl⟩
  · rintro rfl
    rfl
  · rintro (rfl | rfl) <;> rfl
  · intro h1 h2 h3
    simp [getStrategies, h1, h2, h3]

/-- The dispatch of C10 at "0.2.2", "0.3.0", "0.3.1", the empty string and an unrecognized
version. -/
theorem getStrategies_dispatch_witness :
    (getStrategies (fun _ _ _ => .ok [1]) "0xff" ⟨1⟩ ⟨255⟩ "0.2.2").Abi = .YEARN_VAULT_V022_ABI ∧
    (getStrategies (fun _ _ _ => .ok [1]) "0xff" ⟨1⟩ ⟨255⟩ "0.3.0").Abi = .YEARN_VAULT_V030_ABI ∧
    (getStrategies (fun _ _ _ => .ok [1]) "0xff" ⟨1⟩ ⟨255⟩ "0.3.1").Abi = .YEARN_VAULT_V030_ABI ∧
    (getStrategies (fun _ _ _ => .ok [1]) "0xff" ⟨1⟩ ⟨255⟩ "").Abi = .yearnVaultABI ∧
    (getStrategies (fun _ _ _ => .ok [1]) "0xff" ⟨1⟩ ⟨255⟩ "0.4.3").Abi = .yearnVaultABI :=
  ⟨(getStrategies_dispatch _ _ _ _ "0.2.2").1 rfl,
    (getStrategies_dispatch _ _ _ _ "0.3.0").2.1 (Or.inl rfl),
    (getStrategies_dispatch _ _ _ _ "0.3.1").2.1 (Or.inr rfl),
    (getStrategies_dispatch _ _ _ _ "").2.2.1 (by decide) (by decide) (by decide),
    (getStrategies_dispatch _ _ _ _ "0.4.3").2.2.1 (by decide) (by decide) (by decide)⟩

/-! ## Encoding failures -/

/-- C8 as stated fails. With a packer that fails on `keepCRV`, the call list of a one-item
manifest still has all seven descriptors, the one of `keepCRV` among them with nil
CallData. -/
theorem pack_failure_descriptor_still_listed :
    keepCRVFailingPack .yearnStrategyABI "keepCRV" [] = .error "abi: pack failed" ∧
    (buildCalls hexLib keepCRVFailingPack [⟨⟨255⟩, ⟨1⟩, "0.4.3"⟩]).map (fun c => c.Method)
      = ["creditAvailable0", "debtOutstanding0", "expectedReturn0", "strategies",
         "estimatedTotalAssets", "isActive", "keepCRV"] ∧
    (buildCalls hexLib keepCRVFailingPack [⟨⟨255⟩, ⟨1⟩, "0.4.3"⟩])[6]? =
      some { Target := ⟨255⟩, Abi := .yearnStrategyABI, Method := "keepCRV", CallData := [],
             Name := hexLib.toStr ⟨255⟩, Version := "0.4.3" } :=
  ⟨by rfl, by rfl, by rfl⟩

/-- C8, as amended. When packing fails for a builder, the builder still produces the
descriptor of its method, with nil CallData and the usual Target, Abi, Method, Name and
Version; and whatever the packer does, the loop body appends all seven descriptors of the
item. -/
theorem pack_failure_gives_nil_calldata (lib : AddressLib) (pack : PackFn) (name : String)
    (contractAddress strategyAddress : Address) (version : String) :
    (∀ e, pack .yearnVaultABI "creditAvailable0" [strategyAddress] = .error e →
      getCreditAvailable pack name contractAddress strategyAddress version =
        { Target := contractAddress, Abi := .yearnVaultABI, Method := "creditAvailable0",
          CallData := [], Name := name, Version := version }) ∧
    (∀ e, pack .yearnVaultABI "debtOutstanding0" [strategyAddress] = .error e →
      getDebtOutstanding pack name contractAddress strategyAddress version =
        { Target := contractAddress, Abi := .yearnVaultABI, Method := "debtOutstanding0",
          CallData := [], Name := name, Version := version }) ∧
    (∀ e, pack .yearnVaultABI "expectedReturn0" [strategyAddress] = .error e →
      getExpectedReturn pack name contractAddress strategyAddress version =
        { Target := contractAddress, Abi := .yearnVaultABI, Method := "expectedReturn0",
          CallData := [], Name := name, Version := version }) ∧
    (∀ e, pack (getStrategies pack name contractAddress strategyAddress version).Abi
        "strategies" [strategyAddress] = .error e →
      getStrategies pack name contractAddress strategyAddress version =
        { Target := contractAddress,
          Abi := (getStrategies pack name contractAddress strategyAddress version).Abi,
          Method := "strategies", CallData := [], Name := name, Version := version }) ∧
    (∀ e, pack .yearnStrategyABI "estimatedTotalAssets" [] = .error e →
      getStategyEstimatedTotalAsset pack name contractAddress version =
        { Target := contractAddress, Abi := .yearnStrategyABI, Method := "estimatedTotalAssets",
          CallData := [], Name := name, Version := version }) ∧
    (∀ e, pack .yearnStrategyABI "isActive" [] = .error e →
      getStategyIsActive pack name contractAddress version =
        { Target := contractAddress, Abi := .yearnStrategyABI, Method := "isActive",
          CallData := [], Name := name, Version := version }) ∧
    (∀ e, pack .yearnStrategyABI "keepCRV" [] = .error e →
      getStategyKeepCRV pack name contractAddress version =
        { Target := contractAddress, Abi := .yearnStrategyABI, Method := "keepCRV",
          CallData := [], Name := name, Version := version }) ∧
    (∀ calls strat, (appendCalls lib pack calls strat).length = calls.length + 7 ∧
      ((appendCalls lib pack calls strat).drop calls.length).map (fun c => c.Method)
        = methodNames) := by
  refine ⟨?_, ?_, ?_, ?_, ?_, ?_, ?_, ?_⟩
  · intro e h
    simp [getCreditAvailable, h, packedOrNil]
  · intro e h
    simp [getDebtOutstanding, h, packedOrNil]
  · intro e h
    simp [getExpectedReturn, h, packedOrNil]
  · intro e h
    have h' : (getStrategies pack name contractAddress strategyAddress version).CallData = [] := by
      simp only [getStrategies] at h ⊢
      rw [h]
      rfl
    rw [← h']
    rfl
  · intro e h
    simp [getStategyEstimatedTotalAsset, h, packedOrNil]
  · intro e h
    simp [getStategyIsActive, h, packedOrNil]
  · intro e h
    simp [getStategyKeepCRV, h, packedOrNil]
  · intro calls strat
    rw [appendCalls_eq]
    constructor
    · simp
    · simp [methodNames, getCreditAvailable, getDebtOutstanding, getExpectedReturn,
        getStrategies, getStategyEstimatedTotalAsset, getStategyIsActive, getStategyKeepCRV]

/-- The amended C8 for the packer that fails on `keepCRV`. -/
theorem pack_failure_gives_nil_calldata_witness :
    keepCRVFailingPack .yearnStrategyABI "keepCRV" [] = .error "abi: pack failed" ∧
    getStategyKeepCRV keepCRVFailingPack "0xff" ⟨255⟩ "0.4.3" =
      { Target := ⟨255⟩, Abi := .yearnStrategyABI, Method := "keepCRV", CallData := [],
        Name := "0xff", Version := "0.4.3" } :=
  ⟨by rfl,
    (pack_failure_gives_nil_calldata hexLib keepCRVFailingPack "0xff" ⟨255⟩ ⟨255⟩
      "0.4.3").2.2.2.2.2.2.1 _ (by rfl)⟩


/-! ## The map after the decoding loop -/

theorem lastItemFor_nil (lib : AddressLib) (a : Address) : lastItemFor lib a [] = none := rfl

theorem lastItemFor_cons (lib : AddressLib) (a : Address) (strat : TStrategyList)
    (rest : List TStrategyList) :
    lastItemFor lib a (strat :: rest) =
      (lastItemFor lib a rest).or (if storeKey lib strat = a then some strat else none) := by
  unfold lastItemFor
  have h : strat :: rest = [strat] ++ rest := rfl
  rw [h, List.filter_append, List.getLast?_append]
  by_cases hk : storeKey lib strat = a <;> simp [List.filter, hk]

theorem lastItemFor_mem {lib : AddressLib} {a : Address} {strategyList : List TStrategyList}
    {strat : TStrategyList} (h : lastItemFor lib a strategyList = some strat) :
    strat ∈ strategyList ∧ storeKey lib strat = a := by
  unfold lastItemFor at h
  have hmem := List.mem_of_getLast?_eq_some h
  simpa using (List.mem_filter.1 hmem)

theorem lastItemFor_isSome_of_mem (lib : AddressLib) {strategyList : List TStrategyList}
    {strat : TStrategyList} (h : strat ∈ strategyList) :
    ∃ last, lastItemFor lib (storeKey lib strat) strategyList = some last := by
  unfold lastItemFor
  have hmem : strat ∈ strategyList.filter
      (fun s => decide (storeKey lib s = storeKey lib strat)) :=
    List.mem_filter.2 ⟨h, by simp⟩
  cases hl : (strategyList.filter
      (fun s => decide (storeKey lib s = storeKey lib strat))).getLast? with
  | some last => exact ⟨last, rfl⟩
  | none =>
    rw [List.getLast?_eq_none_iff] at hl
    rw [hl] at hmem
    exact absurd hmem (List.not_mem_nil _)

/-- The loop succeeds exactly when every manifest item decodes. -/
theorem decodeLoop_ok_iff (lib : AddressLib) (response : Response)
    (strategyList : List TStrategyList) :
    ∀ m : AddrMap, (∃ m', decodeLoop lib response m strategyList = .ok m') ↔
      ∀ strat ∈ strategyList,
        ∃ d, decodeData response (lib.toStr strat.Strategy) strat.VaultVersion = .ok d := by
  induction strategyList with
  | nil =>
    intro m
    exact ⟨fun _ _ h => absurd h (List.not_mem_nil _), fun _ => ⟨m, rfl⟩⟩
  | cons strat rest ih =>
    intro m
    constructor
    · rintro ⟨m', h⟩
      unfold decodeLoop at h
      obtain ⟨m1, h1, h2⟩ := (except_bind_ok_iff _ _ _).1 h
      obtain ⟨d, hd, -⟩ := (decodeStep_ok_iff _ _ _ _ _).1 h1
      intro s hs
      rcases List.mem_cons.1 hs with rfl | hs'
      · exact ⟨d, hd⟩
      · exact (ih m1).1 ⟨m', h2⟩ s hs'
    · intro hall
      obtain ⟨d, hd⟩ := hall strat (List.mem_cons_self _ _)
      obtain ⟨m', hm'⟩ := (ih (m.set (lib.hexToAddress (lib.toStr strat.Strategy)) d)).2
        (fun s hs => hall s (List.mem_cons_of_mem _ hs))
      refine ⟨m', ?_⟩
      unfold decodeLoop
      exact (except_bind_ok_iff _ _ _).2 ⟨_, (decodeStep_ok_iff _ _ _ _ _).2 ⟨d, hd, rfl⟩, hm'⟩

/-- After a loop that did not panic, every entry of the map is the record decoded for the
last item stored under its key, or the earlier entry when no item is stored there. -/
theorem decodeLoop_entry (lib : AddressLib) (response : Response)
    (strategyList : List TStrategyList) :
    ∀ (m m' : AddrMap), decodeLoop lib response m strategyList = .ok m' →
      ∀ a, m' a = entryAfter lib response m strategyList a := by
  induction strategyList with
  | nil =>
    intro m m' h a
    cases h
    rfl
  | cons strat rest ih =>
    intro m m' h a
    unfold decodeLoop at h
    obtain ⟨m1, h1, h2⟩ := (except_bind_ok_iff _ _ _).1 h
    obtain ⟨d, hd, rfl⟩ := (decodeStep_ok_iff _ _ _ _ _).1 h1
    rw [ih _ _ h2 a]
    unfold entryAfter
    rw [lastItemFor_cons]
    cases hl : lastItemFor lib a rest with
    | some last => rfl
    | none =>
      by_cases hk : storeKey lib strat = a
      · simp only [Option.or, hk, if_true]
        rw [hd]
        simp [AddrMap.set, Except.toOption, ← hk, storeKey]
      · have hk' : ¬ a = lib.hexToAddress (lib.toStr strat.Strategy) := fun e => hk e.symm
        simp [Option.or, hk, AddrMap.set, hk']

theorem entryAfter_idem (lib : AddressLib) (response : Response) (m : AddrMap)
    (strategyList : List TStrategyList) (a : Address) :
    entryAfter lib response (entryAfter lib response m strategyList) strategyList a =
      entryAfter lib response m strategyList a := by
  unfold entryAfter
  cases lastItemFor lib a strategyList <;> rfl


theorem buildCalls_length_ne_zero (lib : AddressLib) (pack : PackFn)
    {strategyList : List TStrategyList} (h : strategyList ≠ []) :
    (buildCalls lib pack strategyList).length ≠ 0 := by
  unfold buildCalls
  rw [foldl_appendCalls_length]
  cases strategyList with
  | nil => exact absurd rfl h
  | cons strat rest => simp

/-- A pass over a non-empty manifest that did not panic ran the decoding loop on the
response of the executor, from the map the network had, and put the resulting map back. -/
theorem fetch_ok_nonempty {lib : AddressLib} {pack : PackFn}
    {executeByBatch : List Call → Nat → Response} {chainID : Nat} {s s' : Store}
    (hne : s.StrategyList chainID ≠ [])
    (h : FetchStrategiesMulticallData lib pack executeByBatch chainID s = .ok s') :
    ∃ m', decodeLoop lib
        (executeByBatch (buildCalls lib pack (s.StrategyList chainID)) (maxBatchFor chainID))
        (mapOf s chainID) (s.StrategyList chainID) = .ok m' ∧
      s' = { s with
        StrategyMultiCallData := fun c =>
          if c = chainID then some m' else s.StrategyMultiCallData c
        effects := s.effects ++
          [.executeByBatch chainID (buildCalls lib pack (s.StrategyList chainID))
              (maxBatchFor chainID),
            .saveInDB "StrategiesMultiCallData" chainID m'] } := by
  unfold FetchStrategiesMulticallData at h
  simp only [if_neg (buildCalls_length_ne_zero lib pack hne)] at h
  unfold mapOf
  split at h
  · cases h
  · cases h
    exact ⟨_, by assumption, rfl⟩

theorem fetch_nonempty_of_loop (lib : AddressLib) (pack : PackFn)
    (executeByBatch : List Call → Nat → Response) (chainID : Nat) (s : Store) (m' : AddrMap)
    (hne : s.StrategyList chainID ≠ [])
    (h : decodeLoop lib
        (executeByBatch (buildCalls lib pack (s.StrategyList chainID)) (maxBatchFor chainID))
        (mapOf s chainID) (s.StrategyList chainID) = .ok m') :
    FetchStrategiesMulticallData lib pack executeByBatch chainID s =
      .ok { s with
        StrategyMultiCallData := fun c =>
          if c = chainID then some m' else s.StrategyMultiCallData c
        effects := s.effects ++
          [.executeByBatch chainID (buildCalls lib pack (s.StrategyList chainID))
              (maxBatchFor chainID),
            .saveInDB "StrategiesMultiCallData" chainID m'] } := by
  unfold FetchStrategiesMulticallData
  simp only [if_neg (buildCalls_length_ne_zero lib pack hne)]
  unfold mapOf at h
  rw [h]
  rfl

theorem fetch_empty {lib : AddressLib} {pack : PackFn}
    {executeByBatch : List Call → Nat → Response} {chainID : Nat} {s : Store}
    (hempty : s.StrategyList chainID = []) :
    FetchStrategiesMulticallData lib pack executeByBatch chainID s =
      .ok { s with effects := s.effects ++ [.logError "No strategies found."] } := by
  unfold FetchStrategiesMulticallData
  rw [hempty]
  rfl

/-! ## The empty manifest -/

/-- C11. When the manifest of the network has zero entities, the pass raises no error,
leaves the in-memory store of every network exactly as it was, and its only effect is the
log line: no batch execution and no persist. -/
theorem empty_manifest_noop (lib : AddressLib) (pack : PackFn)
    (executeByBatch : List Call → Nat → Response) (chainID : Nat) (s : Store)
    (hempty : s.StrategyList chainID = []) :
    ∃ s', FetchStrategiesMulticallData lib pack executeByBatch chainID s = .ok s' ∧
      s'.StrategyMultiCallData = s.StrategyMultiCallData ∧
      s'.StrategyList = s.StrategyList ∧
      s'.effects = s.effects ++ [.logError "No strategies found."] :=
  ⟨_, fetch_empty hempty, rfl, rfl, rfl⟩

/-- The theorem of C11 on a store whose network 1 holds one earlier record and whose
manifest is empty. -/
theorem empty_manifest_noop_witness :
    ∃ s', FetchStrategiesMulticallData hexLib keepCRVFailingPack (fun _ _ => []) 1
        ⟨fun _ => [], fun _ => some (AddrMap.set (fun _ => none) ⟨7⟩ initialData), []⟩ = .ok s' ∧
      mapOf s' 1 ⟨7⟩ = some initialData ∧
      s'.effects.length = 1 :=
  match empty_manifest_noop hexLib keepCRVFailingPack (fun _ _ => []) 1
      ⟨fun _ => [], fun _ => some (AddrMap.set (fun _ => none) ⟨7⟩ initialData), []⟩ rfl with
  | ⟨s', h, hstore, _, heff⟩ => ⟨s', h, by unfold mapOf; rw [hstore]; rfl, by rw [heff]; rfl⟩


theorem lastItemFor_eq_filter_address {lib : AddressLib} {strategyList : List TStrategyList}
    (hrt : ∀ strat ∈ strategyList, storeKey lib strat = strat.Strategy) (a : Address) :
    lastItemFor lib a strategyList =
      (strategyList.filter (fun strat => decide (strat.Strategy = a))).getLast? := by
  unfold lastItemFor
  congr 1
  apply List.filter_congr
  intro strat hstrat
  rw [hrt strat hstrat]

theorem entryAfter_of_no_item {lib : AddressLib} {response : Response} {m : AddrMap}
    {strategyList : List TStrategyList} {a : Address}
    (h : ∀ strat ∈ strategyList, storeKey lib strat ≠ a) :
    entryAfter lib response m strategyList a = m a := by
  unfold entryAfter
  cases hl : lastItemFor lib a strategyList with
  | none => rfl
  | some last =>
    obtain ⟨hmem, hkey⟩ := lastItemFor_mem hl
    exact absurd hkey (h last hmem)

set_option maxRecDepth 10000 in
theorem hexLib_storeKey_255 : storeKey hexLib ⟨⟨255⟩, ⟨1⟩, "0.4.3"⟩ = ⟨255⟩ := by
  decide

set_option maxRecDepth 10000 in
theorem hexLib_storeKey_255_v022 : storeKey hexLib ⟨⟨255⟩, ⟨1⟩, "0.2.2"⟩ = ⟨255⟩ := by
  decide

/-! ## The store across passes -/

/-- C12 as stated fails. Network 1 holds a record for address 7 from an earlier pass; the
manifest now has the single address 255. After the pass the map still holds the record of
address 7, next to the new record of address 255: it was updated in place. -/
theorem earlier_entry_survives_pass :
    ∃ s' m', FetchStrategiesMulticallData hexLib keepCRVFailingPack (fun _ _ => []) 1
        ⟨fun _ => [⟨⟨255⟩, ⟨1⟩, "0.4.3"⟩],
          fun _ => some (AddrMap.set (fun _ => none) ⟨7⟩ { initialData with KeepCRV := some 9 }),
          []⟩ = .ok s' ∧
      s'.StrategyMultiCallData 1 = some m' ∧
      m' ⟨7⟩ = some { initialData with KeepCRV := some 9 } ∧
      m' ⟨255⟩ = some initialData ∧
      (∀ strat ∈ [(⟨⟨255⟩, ⟨1⟩, "0.4.3"⟩ : TStrategyList)], strat.Strategy ≠ ⟨7⟩) := by
  refine ⟨_, _, fetch_nonempty_of_loop _ _ _ _ _ (AddrMap.set
      (AddrMap.set (fun _ => none) ⟨7⟩ { initialData with KeepCRV := some 9 })
      (storeKey hexLib ⟨⟨255⟩, ⟨1⟩, "0.4.3"⟩) initialData) (by decide) (by rfl), rfl, ?_, ?_, ?_⟩
  · rw [hexLib_storeKey_255]
    rfl
  · rw [hexLib_storeKey_255]
    rfl
  · decide

/-- C12, as amended. For every prior store content and every non-empty manifest, after a
pass that did not panic the map of the network holds, for every manifest address, a record
decoded in this pass for a manifest item of that address, and every address outside the
manifest keeps the entry it had before: the map is updated in place, so its keys are the
manifest addresses together with the keys of earlier passes. -/
theorem pass_updates_in_place (lib : AddressLib) (pack : PackFn)
    (executeByBatch : List Call → Nat → Response) (chainID : Nat) (s s' : Store)
    (hne : s.StrategyList chainID ≠ [])
    (hrt : ∀ strat ∈ s.StrategyList chainID, storeKey lib strat = strat.Strategy)
    (hpass : FetchStrategiesMulticallData lib pack executeByBatch chainID s = .ok s') :
    ∃ m', s'.StrategyMultiCallData chainID = some m' ∧
      (∀ strat ∈ s.StrategyList chainID, ∃ item ∈ s.StrategyList chainID,
        item.Strategy = strat.Strategy ∧
        ∃ d, decodeData
            (executeByBatch (buildCalls lib pack (s.StrategyList chainID)) (maxBatchFor chainID))
            (lib.toStr item.Strategy) item.VaultVersion = .ok d ∧
          m' strat.Strategy = some d) ∧
      (∀ a, (∀ strat ∈ s.StrategyList chainID, strat.Strategy ≠ a) →
        m' a = mapOf s chainID a) ∧
      (∀ a, (m' a).isSome = true ↔
        ((∃ strat ∈ s.StrategyList chainID, strat.Strategy = a) ∨
          (mapOf s chainID a).isSome = true)) := by
  obtain ⟨m', hloop, rfl⟩ := fetch_ok_nonempty hne hpass
  have hentry := decodeLoop_entry lib _ _ _ _ hloop
  have hall := (decodeLoop_ok_iff lib _ _ _).1 ⟨m', hloop⟩
  have hin : ∀ strat ∈ s.StrategyList chainID, ∃ item ∈ s.StrategyList chainID,
      item.Strategy = strat.Strategy ∧
      ∃ d, decodeData
          (executeByBatch (buildCalls lib pack (s.StrategyList chainID)) (maxBatchFor chainID))
          (lib.toStr item.Strategy) item.VaultVersion = .ok d ∧
        m' strat.Strategy = some d := by
    intro strat hstrat
    obtain ⟨last, hlast⟩ := lastItemFor_isSome_of_mem lib hstrat
    obtain ⟨hmem, hkey⟩ := lastItemFor_mem hlast
    obtain ⟨d, hd⟩ := hall last hmem
    refine ⟨last, hmem, ?_, d, hd, ?_⟩
    · rw [← hrt last hmem, hkey, hrt strat hstrat]
    · have := hentry (storeKey lib strat)
      rw [hrt strat hstrat] at this
      rw [this]
      unfold entryAfter
      rw [← hrt strat hstrat, hlast]
      simp only [hd]
      rfl
  have hout : ∀ a, (∀ strat ∈ s.StrategyList chainID, strat.Strategy ≠ a) →
      m' a = mapOf s chainID a := by
    intro a ha
    rw [hentry a]
    exact entryAfter_of_no_item (fun strat hstrat => by rw [hrt strat hstrat]; exact ha strat hstrat)
  refine ⟨m', by simp, hin, hout, ?_⟩
  intro a
  by_cases hex : ∃ strat ∈ s.StrategyList chainID, strat.Strategy = a
  · obtain ⟨strat, hstrat, rfl⟩ := hex
    obtain ⟨_, _, _, d, _, hd⟩ := hin strat hstrat
    simp only [hd, Option.isSome_some, true_iff]
    exact Or.inl ⟨strat, hstrat, rfl⟩
  · have hnot : ∀ strat ∈ s.StrategyList chainID, strat.Strategy ≠ a :=
      fun strat hstrat e => hex ⟨strat, hstrat, e⟩
    rw [hout a hnot]
    constructor
    · exact Or.inr
    · rintro (h | h)
      · exact absurd h hex
      · exact h

/-- The amended C12 on the store of the counterexample: address 7 keeps its earlier record. -/
theorem pass_updates_in_place_witness :
    ∃ m', (AddrMap.set (AddrMap.set (fun _ => none) ⟨7⟩ { initialData with KeepCRV := some 9 })
        (storeKey hexLib ⟨⟨255⟩, ⟨1⟩, "0.4.3"⟩) initialData) = m' ∧
      m' ⟨7⟩ = some { initialData with KeepCRV := some 9 } :=
  match pass_updates_in_place hexLib keepCRVFailingPack (fun _ _ => []) 1
      ⟨fun _ => [⟨⟨255⟩, ⟨1⟩, "0.4.3"⟩],
        fun _ => some (AddrMap.set (fun _ => none) ⟨7⟩ { initialData with KeepCRV := some 9 }),
        []⟩ _ (by decide)
      (by
        intro strat hstrat
        rw [List.mem_singleton.1 hstrat]
        exact hexLib_storeKey_255)
      (fetch_nonempty_of_loop _ _ _ _ _ (AddrMap.set
        (AddrMap.set (fun _ => none) ⟨7⟩ { initialData with KeepCRV := some 9 })
        (storeKey hexLib ⟨⟨255⟩, ⟨1⟩, "0.4.3"⟩) initialData) (by decide) (by rfl)) with
  | ⟨m', hm', _, hout, _⟩ =>
    ⟨m', by simpa using hm', by rw [hout ⟨7⟩ (by decide)]; rfl⟩


/-- C16. Running the pass twice in succession with the same manifest and the same executor
(hence the same response) leaves, after the second pass, the store identical to the store
after the first pass: same keys and same records, for this network and every other. -/
theorem pass_idempotent (lib : AddressLib) (pack : PackFn)
    (executeByBatch : List Call → Nat → Response) (chainID : Nat) (s s1 : Store)
    (hfirst : FetchStrategiesMulticallData lib pack executeByBatch chainID s = .ok s1) :
    ∃ s2, FetchStrategiesMulticallData lib pack executeByBatch chainID s1 = .ok s2 ∧
      s2.StrategyMultiCallData = s1.StrategyMultiCallData ∧
      s2.StrategyList = s.StrategyList := by
  by_cases hempty : s.StrategyList chainID = []
  · rw [fetch_empty hempty] at hfirst
    cases hfirst
    exact ⟨_, fetch_empty hempty, rfl, rfl⟩
  · obtain ⟨m', hloop, rfl⟩ := fetch_ok_nonempty hempty hfirst
    have hall := (decodeLoop_ok_iff lib _ _ _).1 ⟨m', hloop⟩
    obtain ⟨m'', hloop'⟩ := (decodeLoop_ok_iff lib _ _ m').2 hall
    have hsame : m'' = m' := by
      funext a
      rw [decodeLoop_entry lib _ _ _ _ hloop' a]
      have hm' : m' = fun b => entryAfter lib
          (executeByBatch (buildCalls lib pack (s.StrategyList chainID)) (maxBatchFor chainID))
          (mapOf s chainID) (s.StrategyList chainID) b :=
        funext (decodeLoop_entry lib _ _ _ _ hloop)
      rw [hm']
      exact entryAfter_idem lib _ _ _ a
    subst hsame
    refine ⟨_, fetch_nonempty_of_loop _ _ _ _ _ m'' hempty ?_, ?_, rfl⟩
    · have hmap : mapOf
          { s with
            StrategyMultiCallData := fun c =>
              if c = chainID then some m'' else s.StrategyMultiCallData c
            effects := s.effects ++
              [.executeByBatch chainID (buildCalls lib pack (s.StrategyList chainID))
                  (maxBatchFor chainID),
                .saveInDB "StrategiesMultiCallData" chainID m''] } chainID = m'' := by
        simp [mapOf]
      rw [hmap]
      exact hloop'
    · funext c
      by_cases hc : c = chainID <;> simp [hc]

/-- The theorem of C16 on the one-item manifest of address 255, started from an empty
store: both passes succeed and the second leaves the store as the first made it. -/
theorem pass_idempotent_witness :
    ∃ s1 s2,
      FetchStrategiesMulticallData hexLib keepCRVFailingPack
        (fun _ _ => [(hexLib.toStr ⟨255⟩ ++ "keepCRV", [.bigInt 3])]) 1
        ⟨fun _ => [⟨⟨255⟩, ⟨1⟩, "0.4.3"⟩], fun _ => none, []⟩ = .ok s1 ∧
      FetchStrategiesMulticallData hexLib keepCRVFailingPack
        (fun _ _ => [(hexLib.toStr ⟨255⟩ ++ "keepCRV", [.bigInt 3])]) 1 s1 = .ok s2 ∧
      s2.StrategyMultiCallData = s1.StrategyMultiCallData :=
  have hfirst := fetch_nonempty_of_loop hexLib keepCRVFailingPack
    (fun _ _ => [(hexLib.toStr ⟨255⟩ ++ "keepCRV", [.bigInt 3])])
    1 ⟨fun _ => [⟨⟨255⟩, ⟨1⟩, "0.4.3"⟩], fun _ => none, []⟩
    (AddrMap.set (fun _ => none) (storeKey hexLib ⟨⟨255⟩, ⟨1⟩, "0.4.3"⟩)
      { initialData with KeepCRV := some 3 }) (by decide) (by rfl)
  match pass_idempotent hexLib keepCRVFailingPack
      (fun _ _ => [(hexLib.toStr ⟨255⟩ ++ "keepCRV", [.bigInt 3])]) 1 _ _ hfirst with
  | ⟨s2, h2, hsame, _⟩ => ⟨_, s2, hfirst, h2, hsame⟩

/-! ## Repeated addresses -/

/-- C19. When the same entity address occurs in several manifest items, all of them read
the same seven response keys, and after a pass that did not panic the store holds under
that address the record decoded for the last such item in manifest order, with the version
tag of that item. -/
theorem repeated_address_last_item_wins (lib : AddressLib) (pack : PackFn)
    (executeByBatch : List Call → Nat → Response) (chainID : Nat) (s s' : Store)
    (hrt : ∀ strat ∈ s.StrategyList chainID, storeKey lib strat = strat.Strategy)
    (hpass : FetchStrategiesMulticallData lib pack executeByBatch chainID s = .ok s')
    (strat : TStrategyList) (hstrat : strat ∈ s.StrategyList chainID) :
    (∀ other ∈ s.StrategyList chainID, other.Strategy = strat.Strategy →
      ∀ method ∈ methodNames,
        lib.toStr other.Strategy ++ method = lib.toStr strat.Strategy ++ method) ∧
    ∃ last d m',
      ((s.StrategyList chainID).filter
        (fun item => decide (item.Strategy = strat.Strategy))).getLast? = some last ∧
      decodeData
        (executeByBatch (buildCalls lib pack (s.StrategyList chainID)) (maxBatchFor chainID))
        (lib.toStr last.Strategy) last.VaultVersion = .ok d ∧
      s'.StrategyMultiCallData chainID = some m' ∧
      m' strat.Strategy = some d := by
  have hne : s.StrategyList chainID ≠ [] := fun h => by
    rw [h] at hstrat
    exact absurd hstrat (List.not_mem_nil _)
  obtain ⟨m', hloop, rfl⟩ := fetch_ok_nonempty hne hpass
  have hall := (decodeLoop_ok_iff lib _ _ _).1 ⟨m', hloop⟩
  refine ⟨fun other _ h method _ => by rw [h], ?_⟩
  obtain ⟨last, hlast⟩ := lastItemFor_isSome_of_mem lib hstrat
  obtain ⟨hmem, -⟩ := lastItemFor_mem hlast
  obtain ⟨d, hd⟩ := hall last hmem
  refine ⟨last, d, m', ?_, hd, by simp, ?_⟩
  · rw [← lastItemFor_eq_filter_address hrt, ← hrt strat hstrat]
    exact hlast
  · rw [decodeLoop_entry lib _ _ _ _ hloop strat.Strategy]
    unfold entryAfter
    rw [← hrt strat hstrat, hlast]
    simp only [hd]
    rfl

/-- The theorem of C19 on a manifest that lists address 255 twice, first under version 0.2.2
and then under version 0.3.0, with eight values under `strategies`: the stored record is the
one of the second item, with position 2 in DebtRatio. -/
theorem repeated_address_last_item_wins_witness :
    ∃ last d m',
      ([(⟨⟨255⟩, ⟨1⟩, "0.2.2"⟩ : TStrategyList), ⟨⟨255⟩, ⟨2⟩, "0.3.0"⟩].filter
        (fun item => decide (item.Strategy = ⟨255⟩))).getLast? = some last ∧
      last.VaultVersion = "0.3.0" ∧
      decodeData [(hexLib.toStr ⟨255⟩ ++ "strategies",
          [.bigInt 1, .bigInt 2, .bigInt 3, .bigInt 4, .bigInt 5, .bigInt 6, .bigInt 7,
            .bigInt 8])] (hexLib.toStr last.Strategy) last.VaultVersion = .ok d ∧
      d.DebtRatio = some 3 ∧ d.DebtLimit = none ∧
      (AddrMap.set (AddrMap.set (fun _ => none)
          (storeKey hexLib ⟨⟨255⟩, ⟨1⟩, "0.2.2"⟩)
          { initialData with
            PerformanceFee := some 1, Activation := some 2, DebtLimit := some 3,
            RateLimit := some 4, LastReport := some 5, TotalDebt := some 6,
            TotalGain := some 7, TotalLoss := some 8 })
          (storeKey hexLib ⟨⟨255⟩, ⟨2⟩, "0.3.0"⟩)
          { initialData with
            PerformanceFee := some 1, Activation := some 2, DebtRatio := some 3,
            RateLimit := some 4, LastReport := some 5, TotalDebt := some 6,
            TotalGain := some 7, TotalLoss := some 8 }) = m' ∧
      m' ⟨255⟩ = some d :=
  match repeated_address_last_item_wins hexLib keepCRVFailingPack
      (fun _ _ => [(hexLib.toStr ⟨255⟩ ++ "strategies",
          [.bigInt 1, .bigInt 2, .bigInt 3, .bigInt 4, .bigInt 5, .bigInt 6, .bigInt 7,
            .bigInt 8])]) 1
      ⟨fun _ => [⟨⟨255⟩, ⟨1⟩, "0.2.2"⟩, ⟨⟨255⟩, ⟨2⟩, "0.3.0"⟩], fun _ => none, []⟩ _
      (by
        intro strat hstrat
        rcases List.mem_cons.1 hstrat with rfl | h
        · exact hexLib_storeKey_255_v022
        · rw [List.mem_singleton.1 h]
          exact hexLib_storeKey_255_v022)
      (fetch_nonempty_of_loop _ _ _ _ _ (AddrMap.set (AddrMap.set (fun _ => none)
          (storeKey hexLib ⟨⟨255⟩, ⟨1⟩, "0.2.2"⟩)
          { initialData with
            PerformanceFee := some 1, Activation := some 2, DebtLimit := some 3,
            RateLimit := some 4, LastReport := some 5, TotalDebt := some 6,
            TotalGain := some 7, TotalLoss := some 8 })
          (storeKey hexLib ⟨⟨255⟩, ⟨2⟩, "0.3.0"⟩)
          { initialData with
            PerformanceFee := some 1, Activation := some 2, DebtRatio := some 3,
            RateLimit := some 4, LastReport := some 5, TotalDebt := some 6,
            TotalGain := some 7, TotalLoss := some 8 }) (by decide) (by rfl))
      ⟨⟨255⟩, ⟨1⟩, "0.2.2"⟩ (by decide) with
  | ⟨_, last, d, m', hlast, hd, hm', hentry⟩ => by
    have hl : last = ⟨⟨255⟩, ⟨2⟩, "0.3.0"⟩ := by
      have h : some last = some (⟨⟨255⟩, ⟨2⟩, "0.3.0"⟩ : TStrategyList) := hlast.symm.trans (by decide)
      exact Option.some.inj h
    subst hl
    have hd' : d = { initialData with
            PerformanceFee := some 1, Activation := some 2, DebtRatio := some 3,
            RateLimit := some 4, LastReport := some 5, TotalDebt := some 6,
            TotalGain := some 7, TotalLoss := some 8 } :=
      Except.ok.inj (hd.symm.trans (by rfl))
    subst hd'
    exact ⟨_, _, m', hlast, rfl, hd, rfl, rfl, by simpa using hm', hentry⟩


theorem decodeStrategies_unrecognized_arity8 (version : String) (strategies : List Value)
    (d : TStrategyMultiCallData) (h1 : version ≠ "0.2.2") (h2 : version ≠ "0.3.0")
    (h3 : version ≠ "0.3.1") (hlen : strategies.length = 8) :
    decodeStrategies version strategies d = .ok d := by
  unfold decodeStrategies
  rw [if_neg (fun h => h1 h.1), if_neg (fun h => h.1.elim h2 h3), if_neg (by omega)]
  rfl

theorem decodeData_eq_single_of_stage_id {response : Response} {name version : String}
    (h : ∀ d0, decodeStrategies version (rawResult response (name ++ "strategies")) d0 = .ok d0) :
    decodeData response name version = decodeSingleValues response name := by
  unfold decodeData
  cases hs : decodeSingleValues response name with
  | error e => rfl
  | ok d0 => exact h d0

/-! ## Unrecognized versions and the correlation key -/

/-- C17. For a version string that is none of "0.2.2", "0.3.0", "0.3.1" (the empty string
included) and a `strategies` result of exactly eight values, the decoder takes no branch:
the multi-field stage returns the record unchanged, the eleven status fields stay unset,
and the decoding is the one of a response without the `strategies` key; yet `getStrategies`
encoded the call of such a version with the current vault ABI. -/
theorem unrecognized_version_arity8_unset (response : Response) (name version : String)
    (h1 : version ≠ "0.2.2") (h2 : version ≠ "0.3.0") (h3 : version ≠ "0.3.1")
    (hlen : (rawResult response (name ++ "strategies")).length = 8) :
    (∀ d0, decodeStrategies version (rawResult response (name ++ "strategies")) d0 = .ok d0) ∧
    (∀ d, decodeData response name version = .ok d → statusUnset d) ∧
    (∀ response',
      (∀ key, key ≠ name ++ "strategies" → rawResult response' key = rawResult response key) →
      response'.lookup (name ++ "strategies") = none →
      decodeData response' name version = decodeData response name version) ∧
    (∀ pack contractAddress strategyAddress,
      (getStrategies pack name contractAddress strategyAddress version).Abi
        = .yearnVaultABI) := by
  have hstage : ∀ d0,
      decodeStrategies version (rawResult response (name ++ "strategies")) d0 = .ok d0 :=
    fun d0 => decodeStrategies_unrecognized_arity8 _ _ _ h1 h2 h3 hlen
  have hdata := decodeData_eq_single_of_stage_id hstage
  refine ⟨hstage, ?_, ?_, ?_⟩
  · intro d hd
    rw [hdata] at hd
    exact decodeSingleValues_statusUnset hd
  · intro response' hagree habsent
    have hstage' : ∀ d0,
        decodeStrategies version (rawResult response' (name ++ "strategies")) d0 = .ok d0 := by
      intro d0
      rw [rawResult_of_lookup_none habsent]
      exact decodeStrategies_other_arity _ _ _ (by decide) (by decide)
    rw [hdata, decodeData_eq_single_of_stage_id hstage']
    exact decodeSingleValues_congr (fun F => hagree _ (fun h =>
      F.method_ne_strategies (string_append_left_cancel h)))
  · intro pack contractAddress strategyAddress
    simp [getStrategies, h1, h2, h3]

/-- The theorem of C17 for the empty version string and eight integers. -/
theorem unrecognized_version_arity8_unset_witness :
    (rawResult [("0xffstrategies",
        [.bigInt 1, .bigInt 2, .bigInt 3, .bigInt 4, .bigInt 5, .bigInt 6, .bigInt 7,
          .bigInt 8])] ("0xff" ++ "strategies")).length = 8 ∧
    decodeData [("0xffstrategies",
        [.bigInt 1, .bigInt 2, .bigInt 3, .bigInt 4, .bigInt 5, .bigInt 6, .bigInt 7,
          .bigInt 8])] "0xff" "" = .ok initialData ∧
    statusUnset initialData ∧
    (getStrategies keepCRVFailingPack "0xff" ⟨1⟩ ⟨255⟩ "").Abi = .yearnVaultABI :=
  have h := unrecognized_version_arity8_unset [("0xffstrategies",
        [.bigInt 1, .bigInt 2, .bigInt 3, .bigInt 4, .bigInt 5, .bigInt 6, .bigInt 7,
          .bigInt 8])] "0xff" "" (by decide) (by decide) (by decide) (by decide)
  ⟨by decide, by rfl, h.2.1 initialData (by rfl), h.2.2.2 keepCRVFailingPack ⟨1⟩ ⟨255⟩⟩

theorem append_inj_of_length_eq {name1 name2 method1 method2 : String}
    (hlen : name1.length = name2.length) (hkey : name1 ++ method1 = name2 ++ method2) :
    name1 = name2 ∧ method1 = method2 := by
  have hdata := congrArg String.data hkey
  simp only [String.data_append] at hdata
  have hl : name1.data.length = name2.data.length := hlen
  obtain ⟨ha, hb⟩ := List.append_inj hdata hl
  exact ⟨String.ext ha, String.ext hb⟩

/-- Every call of the pass was built for a manifest item and one of the seven methods: its
Name is the address string of the item and its Method is the method name. -/
theorem mem_buildCalls {lib : AddressLib} {pack : PackFn} {strategyList : List TStrategyList}
    {c : Call} (h : c ∈ buildCalls lib pack strategyList) :
    ∃ strat ∈ strategyList, c.Name = lib.toStr strat.Strategy ∧ c.Method ∈ methodNames := by
  have hmap : (c.Method, c.Name, c.Version) ∈
      (buildCalls lib pack strategyList).map (fun c => (c.Method, c.Name, c.Version)) :=
    List.mem_map.2 ⟨c, h, rfl⟩
  unfold buildCalls at hmap
  rw [foldl_appendCalls_map] at hmap
  simp only [List.map_nil, List.nil_append, List.mem_flatMap, List.mem_map] at hmap
  obtain ⟨strat, hstrat, method, hmethod, heq⟩ := hmap
  refine ⟨strat, hstrat, ?_, ?_⟩
  · exact (congrArg (fun t => t.2.1) heq).symm
  · have hm : method = c.Method := congrArg (fun t => t.1) heq
    rw [← hm]
    exact hmethod

/-- The decoding of an item reads the response under the seven keys of the item only. -/
theorem decodeData_congr {r1 r2 : Response} {name : String} (version : String)
    (h : ∀ method ∈ methodNames, rawResult r1 (name ++ method) = rawResult r2 (name ++ method)) :
    decodeData r1 name version = decodeData r2 name version := by
  unfold decodeData
  rw [decodeSingleValues_congr (fun F => h _ F.method_mem), h "strategies" (by decide)]

theorem hexDigits_length (width : Nat) : ∀ n, (hexDigits width n).length = width := by
  induction width with
  | zero => intro n; rfl
  | succ w ih =>
    intro n
    simp [hexDigits, ih]

/-- The address strings of the stand-in library all have 42 characters. -/
theorem hexLib_toStr_length (a : Address) : (hexLib.toStr a).length = 42 := by
  show ("0x" ++ String.mk (hexDigits 40 a.val)).length = 42
  rw [String.length_append]
  show 2 + (hexDigits 40 a.val).length = 42
  rw [hexDigits_length]

set_option maxRecDepth 100000 in
theorem hexLib_sample_calls :
    getStategyKeepCRV keepCRVFailingPack (hexLib.toStr ⟨254⟩) ⟨254⟩ "0.3.0" ∈
      buildCalls hexLib keepCRVFailingPack
        [⟨⟨255⟩, ⟨1⟩, "0.4.3"⟩, ⟨⟨254⟩, ⟨1⟩, "0.3.0"⟩] ∧
    (getStategyKeepCRV keepCRVFailingPack (hexLib.toStr ⟨254⟩) ⟨254⟩ "0.3.0").Name
      ≠ hexLib.toStr ⟨255⟩ := by
  decide

/-- C18. The correlation key, entity address string followed by method name, is injective
on the calls of a pass. For two address strings of equal length and two of the seven method
names, equal keys force equal address strings and equal method names. In a pass whose
address strings have one length, two calls of the call list with equal keys Name + Method
have equal Name and equal Method; the decoding of an item reads the response only under the
keys Name + Method of the seven calls built for the item; so a response changed only under
the key of a call of another entity decodes to the same record: no result of one
(entity, method) pair is read as the result of another. -/
theorem correlation_key_injective (lib : AddressLib) (pack : PackFn)
    (strategyList : List TStrategyList)
    (hlen : ∀ s1 ∈ strategyList, ∀ s2 ∈ strategyList,
      (lib.toStr s1.Strategy).length = (lib.toStr s2.Strategy).length) :
    (∀ a1 a2 : Address, (lib.toStr a1).length = (lib.toStr a2).length →
      ∀ method1 ∈ methodNames, ∀ method2 ∈ methodNames,
        lib.toStr a1 ++ method1 = lib.toStr a2 ++ method2 →
          lib.toStr a1 = lib.toStr a2 ∧ method1 = method2) ∧
    (∀ c1 ∈ buildCalls lib pack strategyList, ∀ c2 ∈ buildCalls lib pack strategyList,
      c1.Name ++ c1.Method = c2.Name ++ c2.Method →
        c1.Name = c2.Name ∧ c1.Method = c2.Method) ∧
    (∀ strat ∈ strategyList, ∀ response response',
      (∀ c ∈ appendCalls lib pack [] strat,
        rawResult response' (c.Name ++ c.Method) = rawResult response (c.Name ++ c.Method)) →
      decodeData response' (lib.toStr strat.Strategy) strat.VaultVersion =
        decodeData response (lib.toStr strat.Strategy) strat.VaultVersion) ∧
    (∀ strat ∈ strategyList, ∀ c ∈ buildCalls lib pack strategyList,
      c.Name ≠ lib.toStr strat.Strategy →
      ∀ response response',
        (∀ key, key ≠ c.Name ++ c.Method → rawResult response' key = rawResult response key) →
        decodeData response' (lib.toStr strat.Strategy) strat.VaultVersion =
          decodeData response (lib.toStr strat.Strategy) strat.VaultVersion) := by
  refine ⟨?_, ?_, ?_, ?_⟩
  · intro a1 a2 hl method1 _ method2 _ hkey
    exact append_inj_of_length_eq hl hkey
  · intro c1 h1 c2 h2 hkey
    obtain ⟨s1, hs1, hn1, -⟩ := mem_buildCalls h1
    obtain ⟨s2, hs2, hn2, -⟩ := mem_buildCalls h2
    exact append_inj_of_length_eq (by rw [hn1, hn2]; exact hlen s1 hs1 s2 hs2) hkey
  · intro strat _ response response' hagree
    apply decodeData_congr
    intro method hmethod
    rw [appendCalls_eq] at hagree
    simp only [methodNames, List.mem_cons, List.mem_singleton, List.not_mem_nil,
      or_false] at hmethod
    rcases hmethod with rfl | rfl | rfl | rfl | rfl | rfl | rfl
    · exact hagree (getCreditAvailable pack (lib.toStr strat.Strategy) strat.Vault
        strat.Strategy strat.VaultVersion) (by simp)
    · exact hagree (getDebtOutstanding pack (lib.toStr strat.Strategy) strat.Vault
        strat.Strategy strat.VaultVersion) (by simp)
    · exact hagree (getExpectedReturn pack (lib.toStr strat.Strategy) strat.Vault
        strat.Strategy strat.VaultVersion) (by simp)
    · exact hagree (getStrategies pack (lib.toStr strat.Strategy) strat.Vault
        strat.Strategy strat.VaultVersion) (by simp)
    · exact hagree (getStategyEstimatedTotalAsset pack (lib.toStr strat.Strategy)
        strat.Strategy strat.VaultVersion) (by simp)
    · exact hagree (getStategyIsActive pack (lib.toStr strat.Strategy)
        strat.Strategy strat.VaultVersion) (by simp)
    · exact hagree (getStategyKeepCRV pack (lib.toStr strat.Strategy)
        strat.Strategy strat.VaultVersion) (by simp)
  · intro strat hstrat c hc hname response response' hagree
    obtain ⟨s2, hs2, hn2, -⟩ := mem_buildCalls hc
    apply decodeData_congr
    intro method _
    apply hagree
    intro hkey
    have hl : (lib.toStr strat.Strategy).length = c.Name.length := by
      rw [hn2]
      exact hlen strat hstrat s2 hs2
    exact hname (append_inj_of_length_eq hl hkey).1.symm

/-- The theorem of C18 on the manifest of addresses 255 and 254 under the stand-in library,
whose address strings all have 42 characters: a result written under the `keepCRV` key of
address 254 is not read for address 255, whose record stays the one of an empty response. -/
theorem correlation_key_injective_witness :
    (∀ s1 ∈ [(⟨⟨255⟩, ⟨1⟩, "0.4.3"⟩ : TStrategyList), ⟨⟨254⟩, ⟨1⟩, "0.3.0"⟩],
      ∀ s2 ∈ [(⟨⟨255⟩, ⟨1⟩, "0.4.3"⟩ : TStrategyList), ⟨⟨254⟩, ⟨1⟩, "0.3.0"⟩],
      (hexLib.toStr s1.Strategy).length = (hexLib.toStr s2.Strategy).length) ∧
    decodeData [(hexLib.toStr ⟨254⟩ ++ "keepCRV", [.bigInt 3])] (hexLib.toStr ⟨255⟩) "0.4.3" =
      decodeData [] (hexLib.toStr ⟨255⟩) "0.4.3" :=
  have hlen : ∀ s1 ∈ [(⟨⟨255⟩, ⟨1⟩, "0.4.3"⟩ : TStrategyList), ⟨⟨254⟩, ⟨1⟩, "0.3.0"⟩],
      ∀ s2 ∈ [(⟨⟨255⟩, ⟨1⟩, "0.4.3"⟩ : TStrategyList), ⟨⟨254⟩, ⟨1⟩, "0.3.0"⟩],
      (hexLib.toStr s1.Strategy).length = (hexLib.toStr s2.Strategy).length :=
    fun s1 _ s2 _ => (hexLib_toStr_length s1.Strategy).trans (hexLib_toStr_length s2.Strategy).symm
  ⟨hlen,
    (correlation_key_injective hexLib keepCRVFailingPack
      [⟨⟨255⟩, ⟨1⟩, "0.4.3"⟩, ⟨⟨254⟩, ⟨1⟩, "0.3.0"⟩] hlen).2.2.2
      ⟨⟨255⟩, ⟨1⟩, "0.4.3"⟩ (by decide)
      (getStategyKeepCRV keepCRVFailingPack (hexLib.toStr ⟨254⟩) ⟨254⟩ "0.3.0")
      hexLib_sample_calls.1 hexLib_sample_calls.2
      [] [(hexLib.toStr ⟨254⟩ ++ "keepCRV", [.bigInt 3])]
      (by
        intro key hkey
        have hne : ¬ (key == hexLib.toStr ⟨254⟩ ++ "keepCRV") = true :=
          fun h => hkey (by simpa using h)
        simp [rawResult, List.lookup, hne])⟩


/-! ## Reload from the database -/

/-- C13. `LoadStrategyMulticallData` populates the in-memory store only from a non-empty
snapshot: when the durable load returns an error ("Key not found" or any other), a nil map
or an empty map, the store of every network is unchanged; when it yields a non-empty map,
the entry of that chainID becomes that map and the entries of all other networks are
unchanged. -/
theorem load_populates_only_nonempty (loadFromDB : LoadFn) (chainID : Nat) (s : Store) :
    (∀ err, loadFromDB "StrategiesMultiCallData" chainID = .error err →
      (LoadStrategyMulticallData loadFromDB chainID s).StrategyMultiCallData
        = s.StrategyMultiCallData) ∧
    (loadFromDB "StrategiesMultiCallData" chainID = .ok none →
      (LoadStrategyMulticallData loadFromDB chainID s).StrategyMultiCallData
        = s.StrategyMultiCallData) ∧
    (loadFromDB "StrategiesMultiCallData" chainID = .ok (some []) →
      (LoadStrategyMulticallData loadFromDB chainID s).StrategyMultiCallData
        = s.StrategyMultiCallData) ∧
    (∀ entries, entries ≠ [] →
      loadFromDB "StrategiesMultiCallData" chainID = .ok (some entries) →
      (LoadStrategyMulticallData loadFromDB chainID s).StrategyMultiCallData chainID
          = some (AddrMap.ofSnapshot entries) ∧
        ∀ c, c ≠ chainID →
          (LoadStrategyMulticallData loadFromDB chainID s).StrategyMultiCallData c
            = s.StrategyMultiCallData c) := by
  refine ⟨?_, ?_, ?_, ?_⟩
  · intro err h
    unfold LoadStrategyMulticallData
    rw [h]
    by_cases hk : err = "Key not found" <;> simp [hk]
  · intro h
    unfold LoadStrategyMulticallData
    rw [h]
    simp
  · intro h
    unfold LoadStrategyMulticallData
    rw [h]
    simp [snapshotLen]
  · intro entries hne h
    have hpos : entries.length > 0 := List.length_pos.2 hne
    unfold LoadStrategyMulticallData
    rw [h]
    simp only [Option.isSome_some, snapshotLen, hpos, and_self, if_true, Option.getD_some]
    refine ⟨by simp, ?_⟩
    intro c hc
    simp [hc]

/-- The theorem of C13 on a loader that finds nothing for chain 1 and one that finds a
snapshot with one record. -/
theorem load_populates_only_nonempty_witness :
    (LoadStrategyMulticallData (fun _ _ => .error "Key not found") 1
        ⟨fun _ => [], fun _ => none, []⟩).StrategyMultiCallData = (fun _ => none) ∧
    (LoadStrategyMulticallData (fun _ _ => .ok (some [(⟨7⟩, initialData)])) 1
        ⟨fun _ => [], fun _ => none, []⟩).StrategyMultiCallData 1
      = some (AddrMap.ofSnapshot [(⟨7⟩, initialData)]) :=
  ⟨(load_populates_only_nonempty (fun _ _ => .error "Key not found") 1
      ⟨fun _ => [], fun _ => none, []⟩).1 "Key not found" rfl,
    ((load_populates_only_nonempty (fun _ _ => .ok (some [(⟨7⟩, initialData)])) 1
      ⟨fun _ => [], fun _ => none, []⟩).2.2.2 [(⟨7⟩, initialData)] (by decide) rfl).1⟩

/-! ## The metadata refresher -/

theorem fetchMeta_readinessSignals (lib : AddressLib) (fetched : MetaFetch) (chainID : Nat)
    (s : MetaStore) :
    readinessSignals (FetchStrategiesFromMeta lib fetched chainID s).events
      = readinessSignals s.events := by
  cases fetched <;> simp [FetchStrategiesFromMeta, readinessSignals, List.count_append]

theorem metaCycle_signalled (lib : AddressLib) (chainID : Nat) (state : Bool × MetaStore)
    (fetched : MetaFetch) :
    (metaCycle lib chainID state fetched).1 = true ∧
    readinessSignals (metaCycle lib chainID state fetched).2.events =
      readinessSignals state.2.events + (if state.1 = false then 1 else 0) := by
  obtain ⟨isDone, s⟩ := state
  have hfetch := fetchMeta_readinessSignals lib fetched chainID s
  unfold readinessSignals at hfetch ⊢
  cases isDone <;> simp [metaCycle, List.count_append, hfetch]

theorem metaCycles_after_signal (lib : AddressLib) (chainID : Nat) (fetches : List MetaFetch) :
    ∀ s : MetaStore,
      readinessSignals (fetches.foldl (metaCycle lib chainID) (true, s)).2.events
        = readinessSignals s.events := by
  induction fetches with
  | nil => intro s; rfl
  | cons fetched rest ih =>
    intro s
    rw [List.foldl_cons]
    have hc := metaCycle_signalled lib chainID (true, s) fetched
    have hstate : metaCycle lib chainID (true, s) fetched =
        (true, (metaCycle lib chainID (true, s) fetched).2) := Prod.ext hc.1 rfl
    rw [hstate, ih, hc.2]
    simp

/-- C14, as amended. `RunMetaStrategies` signals readiness exactly once over its whole run,
at the end of its first cycle and whatever that cycle obtained: the events of the first
cycle are those of `FetchStrategiesFromMeta`, then the log line, the signal and the sleep,
and no later cycle signals again. -/
theorem readiness_signalled_once_after_first_cycle (lib : AddressLib) (chainID : Nat)
    (s : MetaStore) (first : MetaFetch) (rest : List MetaFetch) :
    readinessSignals (RunMetaStrategies lib chainID [] s).2.events
      = readinessSignals s.events ∧
    (RunMetaStrategies lib chainID [first] s).2.events =
      (FetchStrategiesFromMeta lib first chainID s).events ++
        [.logInfo "Meta strategies API is ready", .wgDone, .sleep 1] ∧
    readinessSignals (RunMetaStrategies lib chainID [first] s).2.events
      = readinessSignals s.events + 1 ∧
    readinessSignals (RunMetaStrategies lib chainID (first :: rest) s).2.events
      = readinessSignals s.events + 1 := by
  have hc := metaCycle_signalled lib chainID (false, s) first
  have hstate : metaCycle lib chainID (false, s) first =
      (true, (metaCycle lib chainID (false, s) first).2) := Prod.ext hc.1 rfl
  refine ⟨rfl, ?_, ?_, ?_⟩
  · simp [RunMetaStrategies, metaCycle]
  · simpa [RunMetaStrategies] using hc.2
  · unfold RunMetaStrategies
    rw [List.foldl_cons, hstate, metaCycles_after_signal, hc.2]
    simp

/-- C14 as stated fails. When the first cycle cannot reach the remote source, readiness is
signalled all the same at the end of that cycle. -/
theorem readiness_signalled_after_failed_cycle :
    (FetchStrategiesFromMeta hexLib (.getFailed ": timeout") 1 ⟨fun _ => none, []⟩).events =
      [.logError "Error fetching meta information from the Yearn Meta API: timeout"] ∧
    (FetchStrategiesFromMeta hexLib (.getFailed ": timeout") 1
      ⟨fun _ => none, []⟩).StrategiesFromMeta 1 = none ∧
    (RunMetaStrategies hexLib 1 [.getFailed ": timeout"] ⟨fun _ => none, []⟩).2.events =
      [.logError "Error fetching meta information from the Yearn Meta API: timeout",
        .logInfo "Meta strategies API is ready", .wgDone, .sleep 1] ∧
    readinessSignals
      (RunMetaStrategies hexLib 1 [.getFailed ": timeout"] ⟨fun _ => none, []⟩).2.events = 1 :=
  ⟨by decide, rfl, by decide, by decide⟩


theorem MetaMap.set_apply (m : MetaMap) (key : String) (strategy : TStrategyFromMeta)
    (k : String) : m.set key strategy k = if k = key then some strategy else m k := rfl

/-- After the inner loop, a key holds the record when one of its addresses normalizes to
the key, and its earlier entry otherwise. -/
theorem indexStrategy_apply (lib : AddressLib) (strategy : TStrategyFromMeta) (k : String) :
    ∀ m : MetaMap, indexStrategy lib m strategy k =
      if strategy.Addresses.any (fun a => decide (normalizedKey lib a = k)) = true
      then some strategy else m k := by
  unfold indexStrategy
  induction strategy.Addresses with
  | nil => intro m; simp
  | cons a rest ih =>
    intro m
    rw [List.foldl_cons, ih]
    by_cases hrest : rest.any (fun a => decide (normalizedKey lib a = k)) = true
    · simp [hrest]
    · by_cases ha : normalizedKey lib a = k
      · simp [hrest, ha, MetaMap.set_apply]
      · have ha' : ¬ k = normalizedKey lib a := fun e => ha e.symm
        simp [hrest, ha, ha', MetaMap.set_apply]

theorem lastRecordFor_cons (lib : AddressLib) (key : String) (strategy : TStrategyFromMeta)
    (rest : List TStrategyFromMeta) :
    lastRecordFor lib key (strategy :: rest) =
      (lastRecordFor lib key rest).or
        (if strategy.Addresses.any (fun a => decide (normalizedKey lib a = key)) = true
          then some strategy else none) := by
  unfold lastRecordFor
  have h : strategy :: rest = [strategy] ++ rest := rfl
  rw [h, List.filter_append, List.getLast?_append]
  by_cases hk : strategy.Addresses.any (fun a => decide (normalizedKey lib a = key)) = true
  · simp [List.filter, hk]
  · simp [List.filter, hk]

/-- After the indexing loop, a key holds the last record one of whose addresses normalizes
to it, and its earlier entry when there is no such record. -/
theorem indexAll_apply (lib : AddressLib) (strategies : List TStrategyFromMeta) (k : String) :
    ∀ m : MetaMap, strategies.foldl (indexStrategy lib) m k =
      match lastRecordFor lib k strategies with
      | some strategy => some strategy
      | none => m k := by
  induction strategies with
  | nil => intro m; rfl
  | cons strategy rest ih =>
    intro m
    rw [List.foldl_cons, ih, lastRecordFor_cons, indexStrategy_apply]
    cases lastRecordFor lib k rest with
    | some last => rfl
    | none =>
      by_cases hk : strategy.Addresses.any (fun a => decide (normalizedKey lib a = k)) = true
      · simp [hk]
      · simp [hk]

theorem lastRecordFor_isSome_of_mem (lib : AddressLib) {strategies : List TStrategyFromMeta}
    {strategy : TStrategyFromMeta} {a : String} (h : strategy ∈ strategies)
    (ha : a ∈ strategy.Addresses) :
    ∃ last, lastRecordFor lib (normalizedKey lib a) strategies = some last := by
  unfold lastRecordFor
  have hmem : strategy ∈ strategies.filter (fun r =>
      r.Addresses.any (fun b => decide (normalizedKey lib b = normalizedKey lib a))) :=
    List.mem_filter.2 ⟨h, List.any_eq_true.2 ⟨a, ha, by simp⟩⟩
  cases hl : (strategies.filter (fun r =>
      r.Addresses.any (fun b => decide (normalizedKey lib b = normalizedKey lib a)))).getLast? with
  | some last => exact ⟨last, rfl⟩
  | none =>
    rw [List.getLast?_eq_none_iff] at hl
    rw [hl] at hmem
    exact absurd hmem (List.not_mem_nil _)

theorem lastRecordFor_none_of_unnamed {lib : AddressLib} {strategies : List TStrategyFromMeta}
    {key : String}
    (h : ∀ strategy ∈ strategies, ∀ a ∈ strategy.Addresses, normalizedKey lib a ≠ key) :
    lastRecordFor lib key strategies = none := by
  unfold lastRecordFor
  rw [List.getLast?_eq_none_iff, List.filter_eq_nil_iff]
  intro strategy hs hany
  obtain ⟨a, ha, hk⟩ := List.any_eq_true.1 hany
  exact h strategy hs a ha (by simpa using hk)

/-- C15. After a cycle of `FetchStrategiesFromMeta` that parsed a sequence of records, for
every record of the sequence and every address of the record the metadata map of the
network has an entry under the normalized form of the address, and that entry is the last
record of the sequence having an address that normalizes to the same key; keys named by no
record keep their entry, and the maps of the other networks are unchanged. -/
theorem meta_index_after_cycle (lib : AddressLib) (strategies : List TStrategyFromMeta)
    (chainID : Nat) (s : MetaStore) :
    ∃ m', (FetchStrategiesFromMeta lib (.parsed strategies) chainID s).StrategiesFromMeta
        chainID = some m' ∧
      (∀ strategy ∈ strategies, ∀ a ∈ strategy.Addresses,
        ∃ last, lastRecordFor lib (normalizedKey lib a) strategies = some last ∧
          m' (normalizedKey lib a) = some last) ∧
      (∀ key, (∀ strategy ∈ strategies, ∀ a ∈ strategy.Addresses,
          normalizedKey lib a ≠ key) → m' key = metaMapOf s chainID key) ∧
      (∀ c, c ≠ chainID →
        (FetchStrategiesFromMeta lib (.parsed strategies) chainID s).StrategiesFromMeta c
          = s.StrategiesFromMeta c) := by
  refine ⟨strategies.foldl (indexStrategy lib) (metaMapOf s chainID), ?_, ?_, ?_, ?_⟩
  · simp [FetchStrategiesFromMeta, metaMapOf]
  · intro strategy hs a ha
    obtain ⟨last, hlast⟩ := lastRecordFor_isSome_of_mem lib hs ha
    refine ⟨last, hlast, ?_⟩
    rw [indexAll_apply, hlast]
  · intro key hkey
    rw [indexAll_apply, lastRecordFor_none_of_unnamed hkey]
  · intro c hc
    simp [FetchStrategiesFromMeta, hc]

set_option maxRecDepth 100000 in
theorem sampleRecords_index :
    List.foldl (indexStrategy hexLib) (fun _ => none) sampleRecords
        "0x00000000000000000000000000000000000000ff" =
      some ⟨["0x00000000000000000000000000000000000000FF"], "second"⟩ ∧
    List.foldl (indexStrategy hexLib) (fun _ => none) sampleRecords
        "0x00000000000000000000000000000000000000fe" =
      some ⟨["0x00000000000000000000000000000000000000ff",
        "0x00000000000000000000000000000000000000fe"], "first"⟩ ∧
    List.foldl (indexStrategy hexLib) (fun _ => none) sampleRecords
        "0x00000000000000000000000000000000000000fd" = none := by
  decide

/-- The theorem of C15 on two records that share an address written in two letter cases:
the shared key holds the second record, the key of the other address the first. -/
theorem meta_index_after_cycle_witness :
    ∃ m', (FetchStrategiesFromMeta hexLib (.parsed sampleRecords) 1
        ⟨fun _ => none, []⟩).StrategiesFromMeta 1 = some m' ∧
      m' "0x00000000000000000000000000000000000000ff" =
        some ⟨["0x00000000000000000000000000000000000000FF"], "second"⟩ ∧
      m' "0x00000000000000000000000000000000000000fe" =
        some ⟨["0x00000000000000000000000000000000000000ff",
          "0x00000000000000000000000000000000000000fe"], "first"⟩ ∧
      m' "0x00000000000000000000000000000000000000fd" = none :=
  match meta_index_after_cycle hexLib sampleRecords 1 ⟨fun _ => none, []⟩ with
  | ⟨m', hm', _, _, _⟩ => by
    have hm : List.foldl (indexStrategy hexLib) (fun _ => none) sampleRecords = m' :=
      Option.some.inj ((show _ = some _ from rfl).symm.trans hm')
    subst hm
    exact ⟨_, hm', sampleRecords_index.1, sampleRecords_index.2.1, sampleRecords_index.2.2⟩

end YDaemon
